import Mathlib

/-!
Verification development for `autogen/agentchat/contrib/capabilities/toolsfortoolless.py`.

The file embeds the Python source shallowly in Lean:
pure data (JSON values, messages) becomes inductive types, Python's in-place
dict/list mutation in `fix_message_ownership` becomes an explicit object store
with reference indices, and Python exceptions become `Except` results.
-/

namespace ToollessVerif

/-! ## Python/JSON value model

`json.loads` in the source produces Python values built from dicts, lists,
strings, ints, bools and None.  We model them by `Json`.  Numbers are modelled
by `Int` (no claim depends on float behaviour). -/

inductive Json where
  | null : Json
  | bool (b : Bool) : Json
  | num (n : Int) : Json
  | str (s : String) : Json
  | arr (xs : List Json) : Json
  | obj (fields : List (String × Json)) : Json

/-- Python truthiness of a JSON-loaded value, as used by
`and tool_call_data.get('arguments')` on line 128 of the source. -/
def pyTruthy : Json → Bool
  | .null => false
  | .bool b => b
  | .num n => n != 0
  | .str s => s != ""
  | .arr xs => !xs.isEmpty
  | .obj fs => !fs.isEmpty

/-- `dict.get(key)` field lookup (first binding wins; `json.loads` already
collapses duplicate keys, so the oracle supplies deduplicated field lists). -/
def lookupField (fields : List (String × Json)) (k : String) : Option Json :=
  (fields.find? (fun p => p.1 == k)).map (fun p => p.2)

/-- Minimal `json.dumps` string escaping (quote and backslash; the inputs
exercised contain no control characters). -/
def escapeChars : List Char → List Char
  | [] => []
  | c :: cs =>
    if c = '"' then '\\' :: '"' :: escapeChars cs
    else if c = '\\' then '\\' :: '\\' :: escapeChars cs
    else c :: escapeChars cs

def jsonQuote (s : String) : String :=
  "\"" ++ String.mk (escapeChars s.data) ++ "\""

mutual
/-- `json.dumps` with Python's default separators `", "` and `": "`. -/
def dumps : Json → String
  | .null => "null"
  | .bool true => "true"
  | .bool false => "false"
  | .num n => toString n
  | .str s => jsonQuote s
  | .arr xs => "[" ++ dumpsList xs ++ "]"
  | .obj fs => "\x7b" ++ dumpsFields fs ++ "\x7d"

def dumpsList : List Json → String
  | [] => ""
  | [x] => dumps x
  | x :: y :: rest => dumps x ++ ", " ++ dumpsList (y :: rest)

def dumpsFields : List (String × Json) → String
  | [] => ""
  | [p] => jsonQuote p.1 ++ ": " ++ dumps p.2
  | p :: q :: rest => jsonQuote p.1 ++ ": " ++ dumps p.2 ++ ", " ++ dumpsFields (q :: rest)
end

/-- Python exceptions that escape the modelled functions. -/
inductive PyErr where
  | attributeError : PyErr
  | nameError (n : String) : PyErr

deriving DecidableEq

/-- The tool-call dict built on lines 130-135:
`{'id': ..., 'type': 'function', 'function': {'name': ..., 'arguments': ...}}`.
The `arguments` field holds the `json.dumps` serialization, as in the source. -/
structure ToolCall where
  id : String
  type : String
  name : String
  arguments : String

deriving DecidableEq

/-- The character `{` (written via its code so it never appears literally). -/
def lbrace : Char := Char.ofNat 123

/-! ## `parse_tool_calls` (source lines 110-140)

The source calls two functions of the external `fix_busted_json` library
(`to_array_of_plain_strings_or_json`, `can_parse_json`) plus `json.loads`
and `datetime.now`.  None of that code is in the repository, so the embedding
takes them as parameters:

* `sp`  — Segment Scanner (spec section 4.1): splits the text into alternating
  plain and balanced-brace candidate substrings;
* `cp`  — `can_parse_json`;
* `ld`  — `json.loads`, `.error ()` standing for `json.JSONDecodeError`;
* `now` — the value `int(datetime.now().timestamp())` observed at the k-th
  call of `datetime.now()` inside one `parse_tool_calls` invocation.

Theorems either quantify over these parameters or instantiate them with
concrete functions modelled from the spec. -/

/-- The per-section loop of lines 122-139.  A section that `can_parse_json`
accepts and `json.loads` turns into a non-dict makes `.get('name')` raise
`AttributeError`, which the source's `except json.JSONDecodeError` does not
catch; a `JSONDecodeError` is swallowed (`pass`).  An accepted call appends
`{'id': 'toolcall-<now>', 'type': 'function', ...}` and advances the clock
call counter. -/
def processSections (cp : String → Bool) (ld : String → Except Unit Json)
    (now : Nat → Int) (tool_list : List String) :
    List String → List ToolCall → Nat → Except PyErr (List ToolCall)
  | [], acc, _ => .ok acc
  | s :: rest, acc, k =>
    if cp s then
      match ld s with
      | .error _ => processSections cp ld now tool_list rest acc k
      | .ok data =>
        match data with
        | .obj fields =>
          match lookupField fields "name", lookupField fields "arguments" with
          | some (.str n), some args =>
            if tool_list.contains n && pyTruthy args then
              processSections cp ld now tool_list rest
                (acc ++ [⟨"toolcall-" ++ toString (now k), "function", n, dumps args⟩])
                (k + 1)
            else
              processSections cp ld now tool_list rest acc k
          | _, _ => processSections cp ld now tool_list rest acc k
        | _ => .error .attributeError
    else processSections cp ld now tool_list rest acc k

/-- `parse_tool_calls` (lines 110-140).  Guard of line 120:
`if response_text and "{" in response_text`.  The function always returns the
original `response_text` as the second component. -/
def parse_tool_calls (sp : String → List String) (cp : String → Bool)
    (ld : String → Except Unit Json) (now : Nat → Int)
    (response_text : String) (tool_list : List String) :
    Except PyErr (List ToolCall × String) :=
  if response_text ≠ "" ∧ lbrace ∈ response_text.data then
    match processSections cp ld now tool_list (sp response_text) [] 0 with
    | .error e => .error e
    | .ok calls => .ok (calls, response_text)
  else
    .ok ([], response_text)

/-! ## `fix_message_ownership` (source lines 161-194)

The Python function mutates its argument: the dicts appended to
`cleanmessages` are the same objects as the input messages, later merges
mutate them in place, `message['role'] = 'user'` rewrites input dicts, and
`cleanmessages[-1]['tool_responses'].append(...)` appends a *list object* as a
single element.  The embedding therefore uses an explicit object store:

* message dicts live in `Store.msgs`, addressed by `Nat` references;
* `tool_responses` list objects live in `Store.lists`; a message's
  `tool_responses` key is `Option Nat` (`none` = key absent);
* an element of a `tool_responses` list is either a response dict
  (`TRItem.rcd role content`) or a reference to another list object
  (`TRItem.nref`) — the latter is what the `.append` of a list produces;
* `response['role'] = 'user'` applied to a list element that is itself a list
  is a Python `TypeError`, modelled as `.error ()`.

The public wrapper `fix_message_ownership` takes message *values*
(`MsgVal`, with `tool_responses` as a tree `TRVal` so that outputs containing
nested lists can be fed back in), allocates them as fresh distinct objects
(which is how a list of distinct dict literals reaches the Python function),
runs the loop, and reads back both the final values of the input objects and
the returned list. -/

/-- An element of a `tool_responses` list object: a response dict (only its
`role` and `content` entries are ever read or written by the source) or a
reference to another list object. -/
inductive TRItem where
  | rcd (role : String) (content : String) : TRItem
  | nref (l : Nat) : TRItem

deriving DecidableEq

/-- A message dict: `role`, `content`, and the `tool_responses` key
(`none` when the key is absent). -/
structure PyMsg where
  role : String
  content : String
  tr : Option Nat

deriving DecidableEq

/-- The object store: message dicts and `tool_responses` list objects. -/
structure Store where
  msgs : List PyMsg
  lists : List (List TRItem)

deriving DecidableEq

def mdefault : PyMsg := ⟨"", "", none⟩

def getMsg (st : Store) (r : Nat) : PyMsg := st.msgs.getD r mdefault

def setMsgF (st : Store) (r : Nat) (f : PyMsg → PyMsg) : Store :=
  { st with msgs := st.msgs.set r (f (getMsg st r)) }

def getCell (st : Store) (l : Nat) : List TRItem := st.lists.getD l []

def setCell (st : Store) (l : Nat) (xs : List TRItem) : Store :=
  { st with lists := st.lists.set l xs }

/-- `response['role'] = 'user'` (lines 177 and 188): succeeds on a response
dict, raises `TypeError` on a list element (which arises from the nested
append on line 179). -/
def setRespUser : TRItem → Except Unit TRItem
  | .rcd _ c => .ok (.rcd "user" c)
  | .nref _ => .error ()

/-- `for response in message['tool_responses']: response['role'] = 'user'`
(lines 176-177 and 187-188): rewrite every element, stopping at the first
`TypeError`. -/
def setAllUser : List TRItem → Except Unit (List TRItem)
  | [] => .ok []
  | it :: rest => do
    let it' ← setRespUser it
    let rest' ← setAllUser rest
    .ok (it' :: rest')

/-- `message['role'] in ['tool','user']` (line 171). -/
def isUserish (s : String) : Bool := s == "tool" || s == "user"

/-- One iteration of the loop body (lines 170-193) on the message object at
reference `r`.  `clean` is the `cleanmessages` accumulator in reverse order,
so `cleanmessages[-1]` is its head.  Returns the updated store, accumulator
and `previous_was_user` flag. -/
def fmoStep (st : Store) (clean : List Nat) (prevUser : Bool) (r : Nat) :
    Except Unit (Store × List Nat × Bool) :=
  let m := getMsg st r
  if isUserish m.role then
    if prevUser then
      match clean with
      | [] => .error ()
      | hd :: _ =>
        -- cleanmessages[-1]['content'] += message['content']
        let st1 := setMsgF st hd (fun hm => { hm with content := hm.content ++ m.content })
        -- if message.get('tool_responses'):
        match m.tr with
        | some l =>
          if getCell st1 l ≠ [] then
            match setAllUser (getCell st1 l) with
            | .error e => .error e
            | .ok items =>
              let st2 := setCell st1 l items
              -- if cleanmessages[-1].get('tool_responses'):
              match (getMsg st2 hd).tr with
              | some l2 =>
                if getCell st2 l2 ≠ [] then
                  -- .append(message.get('tool_responses')): one list object
                  -- appended as a single element
                  .ok (setCell st2 l2 (getCell st2 l2 ++ [.nref l]), clean, true)
                else
                  .ok (setMsgF st2 hd (fun hm => { hm with tr := some l }), clean, true)
              | none =>
                .ok (setMsgF st2 hd (fun hm => { hm with tr := some l }), clean, true)
          else .ok (st1, clean, true)
        | none => .ok (st1, clean, true)
    else
      -- message['role'] = 'user'
      let st1 := setMsgF st r (fun mm => { mm with role := "user" })
      match (getMsg st1 r).tr with
      | some l =>
        if getCell st1 l ≠ [] then
          match setAllUser (getCell st1 l) with
          | .error e => .error e
          | .ok items => .ok (setCell st1 l items, r :: clean, true)
        else .ok (st1, r :: clean, true)
      | none => .ok (st1, r :: clean, true)
  else
    .ok (st, r :: clean, false)

/-- The loop of lines 167-193 over a list of message references.  Returns the
final `cleanmessages` (in reverse order) and the final store. -/
def fmoLoop : Store → List Nat → List Nat → Bool → Except Unit (List Nat × Store)
  | st, [], clean, _ => .ok (clean, st)
  | st, r :: rest, clean, prev =>
    match fmoStep st clean prev r with
    | .error e => .error e
    | .ok (st', clean', prev') => fmoLoop st' rest clean' prev'

/-- A `tool_responses` entry as a value tree: a response record, or a nested
list (the shape produced by the line-179 append). -/
inductive TRVal where
  | rcd (role : String) (content : String) : TRVal
  | nested (xs : List TRVal) : TRVal

/-- A message as a value: what Python structural equality (`==`) compares. -/
structure MsgVal where
  role : String
  content : String
  tr : Option (List TRVal)

mutual
/-- Allocate the `tool_responses` value trees of one list as store objects;
nested lists become fresh cells referenced by `TRItem.nref`. -/
def allocItem : TRVal → List (List TRItem) → TRItem × List (List TRItem)
  | .rcd r c, ls => (.rcd r c, ls)
  | .nested xs, ls =>
    let (items, ls') := allocList xs ls
    (.nref ls'.length, ls' ++ [items])

def allocList : List TRVal → List (List TRItem) → List TRItem × List (List TRItem)
  | [], ls => ([], ls)
  | v :: vs, ls =>
    let (it, ls') := allocItem v ls
    let (its, ls'') := allocList vs ls'
    (it :: its, ls'')
end

/-- Message dicts for the input values: message `i` points at list cell `i`
when its `tool_responses` key is present. -/
def allocMsgs : List MsgVal → Nat → List PyMsg
  | [], _ => []
  | v :: vs, i => ⟨v.role, v.content, v.tr.map (fun _ => i)⟩ :: allocMsgs vs (i + 1)

/-- List cells: cell `i` holds the top-level items of message `i`'s
`tool_responses` (or stays `[]` when absent); cells for nested lists are
appended after the first `n`. -/
def allocCells : List MsgVal → Nat → List (List TRItem) → List (List TRItem)
  | [], _, ls => ls
  | v :: vs, i, ls =>
    match v.tr with
    | none => allocCells vs (i + 1) ls
    | some tvs =>
      let (items, ls') := allocList tvs ls
      allocCells vs (i + 1) (ls'.set i items)

/-- Fresh allocation of a list of distinct message values as distinct
objects. -/
def allocStore (input : List MsgVal) : Store :=
  ⟨allocMsgs input 0, allocCells input 0 (input.map (fun _ => []))⟩

/-- Read a `tool_responses` item back as a value tree (`fuel` bounds the
nested-reference depth; the wrapper passes the store size, which suffices for
any store reachable from an allocation). -/
def resolveItem (ls : List (List TRItem)) : Nat → TRItem → TRVal
  | _, .rcd r c => .rcd r c
  | 0, .nref _ => .nested []
  | fuel + 1, .nref l => .nested ((ls.getD l []).map (resolveItem ls fuel))

/-- Read a message object back as a value. -/
def resolveMsg (st : Store) (fuel : Nat) (r : Nat) : MsgVal :=
  let m := getMsg st r
  ⟨m.role, m.content, m.tr.map (fun l => (getCell st l).map (resolveItem st.lists fuel))⟩

/-- `fix_message_ownership` on a list of (distinct) message values.
Returns `(final values of the input messages, returned cleanmessages)`;
`.error ()` is the `TypeError` raised by `response['role'] = 'user'` on a
nested list element. -/
def fix_message_ownership (input : List MsgVal) :
    Except Unit (List MsgVal × List MsgVal) :=
  let st0 := allocStore input
  match fmoLoop st0 (List.range input.length) [] false with
  | .error e => .error e
  | .ok (cleanRev, st') =>
    let fuel := st'.lists.length
    .ok ((List.range input.length).map (resolveMsg st' fuel),
         cleanRev.reverse.map (resolveMsg st' fuel))

/-! ## `add_tools` (source lines 73-108) and `__init__` (source lines 34-61)

Both methods evaluate names that are not bound in their scope, so their
embeddings model Python name resolution explicitly: an identifier is looked
up among the names visible at that program point (function locals, then
module globals; none of the names involved is a Python builtin), and a failed
lookup raises `NameError`. -/

/-- Python name lookup: `NameError` when the identifier is not bound. -/
def pyName (scope : List String) (n : String) : Except PyErr Unit :=
  if scope.contains n then .ok () else .error (.nameError n)

/-- The module-level names of `toolsfortoolless.py` (imports on lines 1-10
plus the class itself).  Relevant facts: neither `item`, nor `tool_list`,
nor `clean_old_tools`, nor `result` is among them, and none is a builtin
(`clean_old_tools` is a method, which Python does not expose as a bare name
inside another method — it would need `self.clean_old_tools`). -/
def moduleGlobals : List String :=
  ["os", "json", "Dict", "Optional", "Union", "datetime", "date",
   "ConversableAgent", "AgentCapability", "should_hide_tools",
   "validate_parameter", "jsonparse", "ToolsforToolless"]

/-- One entry of `recipient.llm_config["tools"]`; only the fields the method
would read.  (No field is ever actually reached before the `NameError`.) -/
structure ToolSpec where
  function_name : String
  function_description : String
  function_properties : String

/-- The parts of the recipient agent that `add_tools` reads. -/
structure Recipient where
  system_message : String
  llm_config_tools : List ToolSpec

/-- Substring test, for `self.tool_list_start_msg in current_system_message`
(line 90). -/
def subAt : List Char → List Char → Bool
  | [], _ => true
  | _ :: _, [] => false
  | a :: as, b :: bs => a == b && subAt as bs

def hasSub : List Char → List Char → Bool
  | needle, [] => subAt needle []
  | needle, c :: cs => subAt needle (c :: cs) || hasSub needle cs

def pyInStr (needle hay : String) : Bool := hasSub needle.data hay.data

/-- `self.tool_list_start_msg`, assigned on line 56 (reachable only if the
instance existed; used here as the literal the source would compare with). -/
def tool_list_start_msg : String := "Available Tools: "

/-- Names in scope inside `add_tools` at lines 92/95/102: the parameters,
`current_system_message` (line 87), `tool_schema` (walrus, line 88),
`active_tool_list` (line 93, bound before the loop of line 94), and the
module globals. -/
def addToolsScope : List String :=
  ["self", "recipient", "messages", "sender", "config",
   "current_system_message", "tool_schema", "active_tool_list"] ++ moduleGlobals

/-- `add_tools` (lines 73-104).  Control flow:
line 88 tests truthiness of the tools list; with tools and the marker already
in the system message, line 92 evaluates the bare name `clean_old_tools`
(a method, not a local or global — `NameError`); with tools and no marker,
the loop body's first statement (line 95) evaluates the bare name `tool_list`
(only `active_tool_list` was defined — `NameError`); with no tools, line 102
again evaluates `clean_old_tools`.  The success value would be the
`(False, None)` of line 104, which is never reached. -/
def add_tools (recipient : Recipient) : Except PyErr (Bool × Option Unit) := do
  let current_system_message := recipient.system_message
  if recipient.llm_config_tools.isEmpty = false then
    if pyInStr tool_list_start_msg current_system_message then do
      -- line 92: current_system_message = clean_old_tools(self, ...)
      let _ ← pyName addToolsScope "clean_old_tools"
      .ok (false, none)
    else do
      -- line 94-95: for item in tool_schema: tool_list.append(...)
      -- tool_schema is non-empty here, so the body runs at least once
      let _ ← pyName (addToolsScope ++ ["item"]) "tool_list"
      .ok (false, none)
  else do
    -- line 102: current_system_message = clean_old_tools(self, ...)
    let _ ← pyName addToolsScope "clean_old_tools"
    .ok (false, none)

/-- The partially-built instance at the point line 59 executes.  (Fields of
lines 50-58; the remaining assignments of lines 59-61 never complete.) -/
structure InstanceFields where
  verbosity : Option Int
  max_num_retrievals : Option Int
  llm_config : Option Bool
  toolsfortoolless_agent : Option Unit
  tool_use_system_msg : String
  tool_list_start_msg_f : String
  tool_list_end_msg : String
  no_tools_available : String

/-- Names in scope inside `__init__`: its parameters and the module
globals.  Plain attribute assignments to `self` bind no local names. -/
def initScope : List String :=
  ["self", "verbosity", "max_num_retrievals", "llm_config"] ++ moduleGlobals

/-- `__init__` (lines 34-61).  Lines 50-58 are plain assignments; line 59
evaluates the f-string `f"Tool name: {item['function']['name']}\n"`, whose
interpolation looks up the name `item`, which is bound nowhere in scope. -/
def ToolsforToolless_init (verbosity : Option Int) (max_num_retrievals : Option Int)
    (llm_config : Option Bool) : Except PyErr (InstanceFields × String) := do
  let fields : InstanceFields :=
    { verbosity := verbosity
      max_num_retrievals := max_num_retrievals
      llm_config := llm_config
      toolsfortoolless_agent := none
      tool_use_system_msg := "\nYou can use these tools using json:\n\x7b\"name\": \"toolname\", \"arguments\": \x7b\"arg1\": arg1, \"arg2\": arg2\x7d\x7d'\n"
      tool_list_start_msg_f := "Available Tools: "
      tool_list_end_msg := ""
      no_tools_available := "There are NO tools available for you at this time." }
  -- line 59: self.tool_call_template = f"Tool name: {item['function']['name']}\n"
  let _ ← pyName initScope "item"
  .ok (fields, "unreachable")

/-! ## Spec-modelled instantiations of the external library

`fix_busted_json` is not part of the repository, so concrete runs instantiate
the scanner/parser parameters with functions modelled from the spec:
section 4.1 (segments alternate between plain text and maximal balanced-brace
candidates, gap-free, in document order) and section 4.2 (a successful parse
yields a generic structured value — object, array, or scalar). -/

/-- `isObj v` iff `json.loads` returned a dict. -/
def isObj : Json → Bool
  | .obj _ => true
  | _ => false

/-- A JSON object text calling tool `t` with object arguments. -/
def c2Obj : String := "\x7b\"name\": \"t\", \"arguments\": \x7b\"a\": 1\x7d\x7d"

/-- Two such calls separated by a space. -/
def c2Text : String := c2Obj ++ " " ++ c2Obj

/-- Modelled from the spec: Segment Scanner (section 4.1) output on `c2Text` —
two balanced-brace candidates with the plain " " between them. -/
def c2Sp : String → List String := fun s => if s = c2Text then [c2Obj, " ", c2Obj] else [s]

/-- Modelled from the spec: `can_parse_json` accepts the two candidates and
rejects the plain " ". -/
def c2Cp : String → Bool := fun s => s = c2Obj

/-- Modelled from the spec: `json.loads` on the candidate. -/
def c2Ld : String → Except Unit Json := fun s =>
  if s = c2Obj then .ok (.obj [("name", .str "t"), ("arguments", .obj [("a", .num 1)])])
  else .error ()

/-- A well-formed call whose `arguments` value is the non-empty array `[1]`. -/
def c3Text : String := "\x7b\"name\": \"t\", \"arguments\": [1]\x7d"

/-- Modelled from the spec: the whole text is one balanced-brace candidate. -/
def c3Sp : String → List String := fun s => [s]

/-- Modelled from the spec: the candidate parses. -/
def c3Cp : String → Bool := fun s => s = c3Text

/-- Modelled from the spec: its parse result. -/
def c3Ld : String → Except Unit Json := fun s =>
  if s = c3Text then .ok (.obj [("name", .str "t"), ("arguments", .arr [.num 1])])
  else .error ()

/-- Text whose leading plain segment `"[1] "` is itself parseable JSON
(an array), as spec section 4.2 allows ("object, array, or scalar"). -/
def c4Text : String := "[1] \x7b\"x\": 1\x7d"

/-- Modelled from the spec: scanner output — plain prefix, then the
balanced-brace candidate. -/
def c4Sp : String → List String := fun s => if s = c4Text then ["[1] ", "\x7b\"x\": 1\x7d"] else [s]

/-- Modelled from the spec: both segments are parseable JSON. -/
def c4Cp : String → Bool := fun s => s = "[1] " || s = "\x7b\"x\": 1\x7d"

/-- Modelled from the spec: `json.loads` on the two segments. -/
def c4Ld : String → Except Unit Json := fun s =>
  if s = "[1] " then .ok (.arr [.num 1])
  else if s = "\x7b\"x\": 1\x7d" then .ok (.obj [("x", .num 1)])
  else .error ()

/-! ## The amended extraction contract (claim C3)

`extractSpec` states the amended claim in the spec's own shape: a parsed
candidate is accepted iff its `name` is a catalog string and its `arguments`
value is *truthy* (non-empty object, non-empty array, non-empty string,
non-zero number, or `true`); accepted calls keep candidate order; non-object
parse results are dropped.  The refinement theorem compares the source
embedding against it. -/

def extractGo (cp : String → Bool) (ld : String → Except Unit Json)
    (now : Nat → Int) (tools : List String) : List String → Nat → List ToolCall
  | [], _ => []
  | s :: rest, k =>
    if cp s then
      match ld s with
      | .ok (.obj fields) =>
        match lookupField fields "name", lookupField fields "arguments" with
        | some (.str n), some args =>
          if tools.contains n && pyTruthy args then
            ⟨"toolcall-" ++ toString (now k), "function", n, dumps args⟩
              :: extractGo cp ld now tools rest (k + 1)
          else extractGo cp ld now tools rest k
        | _, _ => extractGo cp ld now tools rest k
      | _ => extractGo cp ld now tools rest k
    else extractGo cp ld now tools rest k

def extractSpec (sp : String → List String) (cp : String → Bool)
    (ld : String → Except Unit Json) (now : Nat → Int)
    (text : String) (tools : List String) : List ToolCall × String :=
  if text ≠ "" ∧ lbrace ∈ text.data then
    (extractGo cp ld now tools (sp text) 0, text)
  else ([], text)

/-! ## Toolkit lemmas for the store model -/

def roleOf (st : Store) (x : Nat) : String := (getMsg st x).role

/-- Every record item of the list object already has role `user`
(references to nested lists are unconstrained). -/
def rcdUser (l : List TRItem) : Prop :=
  ∀ it ∈ l, ∀ ro co, it = TRItem.rcd ro co → ro = "user"

/-- Every item is a response record with role `user`. -/
def allUserRcd (l : List TRItem) : Prop :=
  ∀ it ∈ l, ∃ co, it = TRItem.rcd "user" co

/-- No two adjacent user-like roles. -/
def noTwoUserish (a b : String) : Prop :=
  ¬(isUserish a = true ∧ isUserish b = true)

/-- Invariant maintained by the `fix_message_ownership` loop: `refs` are the
unprocessed message references, `clean` the accumulator (reversed), `prev`
the `previous_was_user` flag. -/
structure LoopInv (st : Store) (refs clean : List Nat) (prev : Bool) : Prop where
  bounds : ∀ x ∈ refs, x < st.msgs.length
  ndp : refs.Nodup
  cndp : clean.Nodup
  disj : ∀ x ∈ refs, x ∉ clean
  prev_true : prev = true → ∃ hd tl, clean = hd :: tl ∧ roleOf st hd = "user"
  prev_false : prev = false → clean = [] ∨
      ∃ hd tl, clean = hd :: tl ∧ isUserish (roleOf st hd) = false
  chain : List.Chain' noTwoUserish (clean.map (roleOf st))
  no_tool : ∀ x ∈ clean, roleOf st x ≠ "tool"
  tr_user : ∀ x ∈ clean, roleOf st x = "user" →
      ∀ l, (getMsg st x).tr = some l → rcdUser (getCell st l)

/-- A `tool_responses` value list is flat iff every entry is a response
record (no entry is itself a list). -/
def flatRecords (l : List TRVal) : Prop := ∀ it ∈ l, ∃ ro co, it = TRVal.rcd ro co

def vdefault : MsgVal := ⟨"", "", none⟩

/-- A message value carries no nested `tool_responses` entry. -/
def flatMsg (v : MsgVal) : Prop := ∀ l, v.tr = some l → flatRecords l

/-- Store item of a flat `tool_responses` entry (the `.nested` case is never
reached under a `flatRecords` hypothesis). -/
def trToItem : TRVal → TRItem
  | .rcd ro co => .rcd ro co
  | .nested _ => .nref 0

/-- A message on which the emit branch is a no-op: its role is already
`user` and its `tool_responses` records are already all `user` records. -/
def stepGood (st : Store) (x : Nat) : Prop :=
  isUserish (roleOf st x) = true →
    roleOf st x = "user" ∧ ∀ l, (getMsg st x).tr = some l → allUserRcd (getCell st l)

/-- A merge scene for the nested case: the previous output message (ref 0)
already carries non-empty `tool_responses` (list object 0) and the incoming
`tool`-role message (ref 1) carries a two-record list (list object 1). -/
def c5NestedStore : Store :=
  ⟨[⟨"user", "A", some 0⟩, ⟨"tool", "B", some 1⟩],
   [[.rcd "a" "c1"], [.rcd "x" "d1", .rcd "y" "d2"]]⟩

/-- The store the merge step leaves behind on `c5NestedStore`. -/
def c5MergedStore : Store :=
  ⟨[⟨"user", "AB", some 0⟩, ⟨"tool", "B", some 1⟩],
   [[.rcd "a" "c1", .nref 1], [.rcd "user" "d1", .rcd "user" "d2"]]⟩

/-! ## Theorems -/

/-- The per-section loop refines the spec-side fold whenever no
`can_parse_json`-accepted section loads to a non-object value. -/
theorem processSections_eq_extractGo (cp : String → Bool)
    (ld : String → Except Unit Json) (now : Nat → Int) (tools : List String) :
    ∀ (ss : List String) (acc : List ToolCall) (k : Nat),
      (∀ s ∈ ss, cp s = true → ∀ v, ld s = .ok v → isObj v = true) →
      processSections cp ld now tools ss acc k
        = .ok (acc ++ extractGo cp ld now tools ss k) := by
  intro ss
  induction ss with
  | nil => intro acc k _; simp [processSections, extractGo]
  | cons s rest ih =>
    intro acc k H
    have Hs := H s (by simp)
    have Hrest : ∀ s' ∈ rest, cp s' = true → ∀ v, ld s' = .ok v → isObj v = true := by
      intro s' hs' hcp v hv
      exact H s' (by simp [hs']) hcp v hv
    by_cases hcp : cp s = true
    · cases hld : ld s with
      | error e =>
        simp only [processSections, extractGo, hcp, if_true, hld]
        exact ih acc k Hrest
      | ok v =>
        have hobj := Hs hcp v hld
        cases v with
        | obj fields =>
          cases hname : lookupField fields "name" with
          | none =>
            simp only [processSections, extractGo, hcp, if_true, hld, hname]
            exact ih acc k Hrest
          | some nv =>
            cases nv with
            | str n =>
              cases hargs : lookupField fields "arguments" with
              | none =>
                simp only [processSections, extractGo, hcp, if_true, hld, hname, hargs]
                exact ih acc k Hrest
              | some args =>
                by_cases hacc : (tools.contains n && pyTruthy args) = true
                · simp only [processSections, extractGo, hcp, if_true, hld, hname, hargs,
                    hacc]
                  refine (ih _ _ Hrest).trans ?_
                  simp
                · simp only [processSections, extractGo, hcp, if_true, hld, hname, hargs,
                    Bool.not_eq_true] at *
                  simp only [hacc, if_false, Bool.false_eq_true]
                  exact ih acc k Hrest
            | null =>
              simp only [processSections, extractGo, hcp, if_true, hld, hname]
              exact ih acc k Hrest
            | bool b =>
              simp only [processSections, extractGo, hcp, if_true, hld, hname]
              exact ih acc k Hrest
            | num m =>
              simp only [processSections, extractGo, hcp, if_true, hld, hname]
              exact ih acc k Hrest
            | arr xs =>
              simp only [processSections, extractGo, hcp, if_true, hld, hname]
              exact ih acc k Hrest
            | obj fs =>
              simp only [processSections, extractGo, hcp, if_true, hld, hname]
              exact ih acc k Hrest
        | null => simp [isObj] at hobj
        | bool b => simp [isObj] at hobj
        | num m => simp [isObj] at hobj
        | str st => simp [isObj] at hobj
        | arr xs => simp [isObj] at hobj
    · have hcp' : cp s = false := by
        cases h : cp s
        · rfl
        · exact absurd h hcp
      simp only [processSections, extractGo, hcp', Bool.false_eq_true, if_false]
      exact ih acc k Hrest

/-! ## Claim theorems for `parse_tool_calls` -/

/-- Claim C8: `parse_tool_calls` always returns the original text verbatim as
the second component of a successful result; when the text is empty or
contains no brace it returns exactly `([], text)`; and on such texts the
result does not depend on the scanner, parser, or clock at all (the source's
line-120 guard skips them). -/
theorem c8_parse_returns_text_verbatim :
    (∀ (sp : String → List String) (cp : String → Bool) (ld : String → Except Unit Json)
        (now : Nat → Int) (text : String) (tl : List String) (res : List ToolCall × String),
      parse_tool_calls sp cp ld now text tl = .ok res → res.2 = text) ∧
    (∀ (sp : String → List String) (cp : String → Bool) (ld : String → Except Unit Json)
        (now : Nat → Int) (text : String) (tl : List String),
      lbrace ∉ text.data →
      parse_tool_calls sp cp ld now text tl = .ok ([], text)) ∧
    (∀ (sp sp' : String → List String) (cp cp' : String → Bool)
        (ld ld' : String → Except Unit Json) (now now' : Nat → Int)
        (text : String) (tl tl' : List String),
      lbrace ∉ text.data →
      parse_tool_calls sp cp ld now text tl = parse_tool_calls sp' cp' ld' now' text tl') := by
  refine ⟨?_, ?_, ?_⟩
  · intro sp cp ld now text tl res h
    unfold parse_tool_calls at h
    split at h
    · cases hps : processSections cp ld now tl (sp text) [] 0 with
      | error e => rw [hps] at h; cases h
      | ok calls => rw [hps] at h; cases h; rfl
    · cases h; rfl
  · intro sp cp ld now text tl hnb
    unfold parse_tool_calls
    rw [if_neg (fun hc => hnb hc.2)]
  · intro sp sp' cp cp' ld ld' now now' text tl tl' hnb
    unfold parse_tool_calls
    rw [if_neg (fun hc => hnb hc.2), if_neg (fun hc => hnb hc.2)]

/-- Witness for C8 at concrete inputs: a successful extraction returns its
text as second component, and a brace-free text maps to `([], text)`. -/
theorem c8_parse_returns_text_verbatim_witness :
    (([(⟨"toolcall-0", "function", "t", "[1]"⟩ : ToolCall)], c3Text) :
        List ToolCall × String).2 = c3Text ∧
    parse_tool_calls c3Sp c3Cp c3Ld (fun _ => 0) "no braces here" [] =
      .ok ([], "no braces here") :=
  ⟨c8_parse_returns_text_verbatim.1 c3Sp c3Cp c3Ld (fun _ => 0) c3Text ["t"] _ (by rfl),
   c8_parse_returns_text_verbatim.2.1 c3Sp c3Cp c3Ld (fun _ => 0) "no braces here" []
     (by decide)⟩

/-- Claim C2 is violated by the code: on a text holding two accepted calls,
with both `datetime.now()` readings in the same clock second (value
1700000000), both ToolCallRequests get the id `toolcall-1700000000` — line
129 uses the truncated timestamp alone, with no per-call discriminator. -/
theorem c2_id_collision_same_tick :
    ∃ calls,
      parse_tool_calls c2Sp c2Cp c2Ld (fun _ => 1700000000) c2Text ["t"]
        = .ok (calls, c2Text) ∧
      ¬ List.Pairwise (fun a b : ToolCall => a.id ≠ b.id) calls := by
  refine ⟨[⟨"toolcall-1700000000", "function", "t", "\x7b\"a\": 1\x7d"⟩,
           ⟨"toolcall-1700000000", "function", "t", "\x7b\"a\": 1\x7d"⟩], by rfl, ?_⟩
  decide

/-- Counterexample to claim C3 as stated: a call whose `arguments` value is
the non-empty *array* `[1]` (not an object) is accepted, not dropped —
line 128 tests Python truthiness, not object shape. -/
theorem c3_counterexample_array_arguments_accepted :
    parse_tool_calls c3Sp c3Cp c3Ld (fun _ => 0) c3Text ["t"]
      = .ok ([⟨"toolcall-0", "function", "t", "[1]"⟩], c3Text) ∧
    parse_tool_calls c3Sp c3Cp c3Ld (fun _ => 0) c3Text ["t"]
      ≠ .ok ([], c3Text) := by
  refine ⟨by rfl, fun h => ?_⟩
  have h0 := Except.ok.inj
    ((by rfl : parse_tool_calls c3Sp c3Cp c3Ld (fun _ => 0) c3Text ["t"]
      = .ok ([⟨"toolcall-0", "function", "t", "[1]"⟩], c3Text)).symm.trans h)
  simp at h0

/-- Claim C3 as amended: a parsed candidate object is accepted iff its `name`
is a catalog entry and its `arguments` value is Python-truthy (non-empty
object, non-empty array, non-empty string, non-zero number, or true), with
candidate order preserved and fresh ids drawn per accepted call — that is,
`parse_tool_calls` returns exactly `extractSpec`, provided every section the
parser accepts loads to an object (otherwise line 128 raises, see C4). -/
theorem c3_amended_acceptance_is_truthiness (sp : String → List String)
    (cp : String → Bool) (ld : String → Except Unit Json) (now : Nat → Int)
    (text : String) (tools : List String)
    (H : ∀ s ∈ sp text, cp s = true → ∀ v, ld s = .ok v → isObj v = true) :
    parse_tool_calls sp cp ld now text tools
      = .ok (extractSpec sp cp ld now text tools) := by
  unfold parse_tool_calls extractSpec
  split
  · rw [processSections_eq_extractGo cp ld now tools (sp text) [] 0 H]
    simp
  · rfl

/-- Witness for the amended C3 at the concrete array-argument run. -/
theorem c3_amended_acceptance_witness :
    parse_tool_calls c3Sp c3Cp c3Ld (fun _ => 0) c3Text ["t"]
      = .ok (extractSpec c3Sp c3Cp c3Ld (fun _ => 0) c3Text ["t"]) :=
  c3_amended_acceptance_is_truthiness c3Sp c3Cp c3Ld (fun _ => 0) c3Text ["t"]
    (by
      intro s hs hcp v hv
      simp only [c3Sp, List.mem_singleton] at hs
      subst hs
      simp [c3Ld] at hv
      subst hv
      rfl)

/-- Claim C4 is violated by the code: a segment that `can_parse_json` accepts
but that loads to a non-object (here the plain segment `"[1] "`, an array)
makes line 128's `.get('name')` raise `AttributeError`, which the
`except json.JSONDecodeError` of line 137 does not catch, so the exception
reaches the caller instead of the segment being skipped. -/
theorem c4_attributeError_escapes :
    parse_tool_calls c4Sp c4Cp c4Ld (fun _ => 0) c4Text ["t"]
      = .error .attributeError := by rfl

theorem rcdUser_of_allUserRcd {l : List TRItem} (h : allUserRcd l) : rcdUser l := by
  intro it hit ro co hco
  obtain ⟨co', hco'⟩ := h it hit
  rw [hco'] at hco
  cases hco
  rfl

theorem getD_set_self {α : Type _} (l : List α) (i : Nat) (a d : α)
    (h : i < l.length) : (l.set i a).getD i d = a := by
  induction l generalizing i with
  | nil => cases h
  | cons x xs ih =>
    cases i with
    | zero => rfl
    | succ j => exact ih j (Nat.lt_of_succ_lt_succ h)

theorem getD_set_ne {α : Type _} (l : List α) (i j : Nat) (a d : α)
    (h : j ≠ i) : (l.set i a).getD j d = l.getD j d := by
  induction l generalizing i j with
  | nil => rfl
  | cons x xs ih =>
    cases i with
    | zero =>
      cases j with
      | zero => exact absurd rfl h
      | succ j' => rfl
    | succ i' =>
      cases j with
      | zero => rfl
      | succ j' => exact ih i' j' (fun hc => h (by rw [hc]))

theorem set_getD_self {α : Type _} (l : List α) (i : Nat) (d : α)
    (h : i < l.length) : l.set i (l.getD i d) = l := by
  induction l generalizing i with
  | nil => rfl
  | cons x xs ih =>
    cases i with
    | zero => rfl
    | succ j => exact congrArg (x :: ·) (ih j (Nat.lt_of_succ_lt_succ h))

theorem lt_length_of_getD_ne {α : Type _} (l : List α) (i : Nat) (d : α)
    (h : l.getD i d ≠ d) : i < l.length := by
  induction l generalizing i with
  | nil => exact absurd rfl h
  | cons x xs ih =>
    cases i with
    | zero => exact Nat.succ_pos _
    | succ j => exact Nat.succ_lt_succ (ih j h)

theorem length_msgs_setMsgF (st : Store) (r : Nat) (f : PyMsg → PyMsg) :
    (setMsgF st r f).msgs.length = st.msgs.length := List.length_set ..

theorem lists_setMsgF (st : Store) (r : Nat) (f : PyMsg → PyMsg) :
    (setMsgF st r f).lists = st.lists := rfl

theorem msgs_setCell (st : Store) (l : Nat) (xs : List TRItem) :
    (setCell st l xs).msgs = st.msgs := rfl

theorem length_lists_setCell (st : Store) (l : Nat) (xs : List TRItem) :
    (setCell st l xs).lists.length = st.lists.length := List.length_set ..

theorem getMsg_setMsgF_ne (st : Store) (r y : Nat) (f : PyMsg → PyMsg)
    (h : y ≠ r) : getMsg (setMsgF st r f) y = getMsg st y := by
  unfold getMsg setMsgF
  exact getD_set_ne _ _ _ _ _ h

theorem getMsg_setMsgF_self (st : Store) (r : Nat) (f : PyMsg → PyMsg)
    (h : r < st.msgs.length) : getMsg (setMsgF st r f) r = f (getMsg st r) := by
  unfold getMsg setMsgF
  exact getD_set_self _ _ _ _ h

theorem getMsg_setCell (st : Store) (l : Nat) (xs : List TRItem) (y : Nat) :
    getMsg (setCell st l xs) y = getMsg st y := rfl

theorem getCell_setMsgF (st : Store) (r : Nat) (f : PyMsg → PyMsg) (l : Nat) :
    getCell (setMsgF st r f) l = getCell st l := rfl

theorem getCell_setCell_self (st : Store) (l : Nat) (xs : List TRItem)
    (h : l < st.lists.length) : getCell (setCell st l xs) l = xs := by
  unfold getCell setCell
  exact getD_set_self _ _ _ _ h

theorem getCell_setCell_ne (st : Store) (l l' : Nat) (xs : List TRItem)
    (h : l' ≠ l) : getCell (setCell st l xs) l' = getCell st l' := by
  unfold getCell setCell
  exact getD_set_ne _ _ _ _ _ h

theorem getCell_setCell_cases (st : Store) (l : Nat) (xs : List TRItem) (l' : Nat) :
    getCell (setCell st l xs) l' = xs ∨ getCell (setCell st l xs) l' = getCell st l' := by
  by_cases hl : l' = l
  · subst hl
    by_cases hlen : l' < st.lists.length
    · exact Or.inl (getCell_setCell_self st l' xs hlen)
    · right
      unfold getCell setCell
      rw [List.set_eq_of_length_le (Nat.le_of_not_lt hlen)]
  · exact Or.inr (getCell_setCell_ne st l l' xs hl)

theorem setAllUser_ok_allUser {l items : List TRItem}
    (h : setAllUser l = .ok items) : allUserRcd items := by
  induction l generalizing items with
  | nil =>
    cases h
    intro it hit
    cases hit
  | cons it rest ih =>
    cases it with
    | rcd ro co =>
      cases hr : setAllUser rest with
      | error e =>
        rw [setAllUser, hr] at h
        cases h
      | ok rest' =>
        rw [setAllUser, hr] at h
        cases h
        intro x hx
        cases hx with
        | head => exact ⟨co, rfl⟩
        | tail _ hx' => exact ih hr x hx'
    | nref n =>
      rw [setAllUser] at h
      cases h

theorem setAllUser_id {l : List TRItem} (h : allUserRcd l) : setAllUser l = .ok l := by
  induction l with
  | nil => rfl
  | cons it rest ih =>
    obtain ⟨co, hco⟩ := h it (by simp)
    subst hco
    rw [setAllUser, ih (fun x hx => h x (by simp [hx]))]
    rfl

theorem isUserish_iff {s : String} : isUserish s = true ↔ s = "user" ∨ s = "tool" := by
  unfold isUserish
  rw [Bool.or_eq_true, beq_iff_eq, beq_iff_eq, or_comm]

theorem ne_tool_of_not_userish {s : String} (h : isUserish s = false) : s ≠ "tool" := by
  intro hs
  rw [hs] at h
  cases h

theorem ne_user_of_not_userish {s : String} (h : isUserish s = false) : s ≠ "user" := by
  intro hs
  rw [hs] at h
  cases h

theorem eq_user_of_userish_ne_tool {s : String} (hu : isUserish s = true)
    (ht : s ≠ "tool") : s = "user" := by
  rcases isUserish_iff.mp hu with h | h
  · exact h
  · exact absurd h ht

theorem resolveMsg_role (st : Store) (fuel r : Nat) :
    (resolveMsg st fuel r).role = roleOf st r := rfl

theorem setMsgF_oob (st : Store) (r : Nat) (f : PyMsg → PyMsg)
    (h : st.msgs.length ≤ r) : setMsgF st r f = st := by
  unfold setMsgF
  rw [List.set_eq_of_length_le h]

theorem getCell_ne_nil_lt {st : Store} {l : Nat} (h : getCell st l ≠ []) :
    l < st.lists.length := lt_length_of_getD_ne _ _ _ h

theorem roleOf_setMsgF_of_role_eq {st : Store} {r : Nat} {f : PyMsg → PyMsg}
    (hf : ∀ m, (f m).role = m.role) (y : Nat) :
    roleOf (setMsgF st r f) y = roleOf st y := by
  by_cases hy : y = r
  · subst hy
    by_cases hlt : y < st.msgs.length
    · unfold roleOf
      rw [getMsg_setMsgF_self st y f hlt, hf]
    · rw [setMsgF_oob st y f (Nat.le_of_not_lt hlt)]
  · unfold roleOf
    rw [getMsg_setMsgF_ne st r y f hy]

theorem tr_setMsgF_of_tr_eq {st : Store} {r : Nat} {f : PyMsg → PyMsg}
    (hf : ∀ m, (f m).tr = m.tr) (y : Nat) :
    (getMsg (setMsgF st r f) y).tr = (getMsg st y).tr := by
  by_cases hy : y = r
  · subst hy
    by_cases hlt : y < st.msgs.length
    · rw [getMsg_setMsgF_self st y f hlt, hf]
    · rw [setMsgF_oob st y f (Nat.le_of_not_lt hlt)]
  · rw [getMsg_setMsgF_ne st r y f hy]

theorem rcdUser_append_nref {l : List TRItem} {n : Nat} (h : rcdUser l) :
    rcdUser (l ++ [TRItem.nref n]) := by
  intro it hit ro co hco
  rcases List.mem_append.mp hit with hl | hr
  · exact h it hl ro co hco
  · rw [List.mem_singleton] at hr
    rw [hr] at hco
    cases hco

theorem rcdUser_nil : rcdUser [] := by
  intro it hit
  cases hit

/-- The line-190-193 branch: a non-user-like message is appended unchanged
and the run flag clears. -/
theorem fmoStep_skip (st : Store) (clean : List Nat) (prev : Bool) (r : Nat)
    (h : isUserish (getMsg st r).role = false) :
    fmoStep st clean prev r = .ok (st, r :: clean, false) := by
  unfold fmoStep
  simp [h]

/-- The line-182-189 branch (start of a user run): facts about the store the
step leaves behind. -/
theorem fmoStep_emit {st st' : Store} {clean clean' : List Nat} {r : Nat}
    {prev' : Bool}
    (hu : isUserish (getMsg st r).role = true) (hr : r < st.msgs.length)
    (hok : fmoStep st clean false r = .ok (st', clean', prev')) :
    clean' = r :: clean ∧ prev' = true ∧
    st'.msgs.length = st.msgs.length ∧
    (∀ y, y ≠ r → getMsg st' y = getMsg st y) ∧
    roleOf st' r = "user" ∧
    (getMsg st' r).tr = (getMsg st r).tr ∧
    (∀ l, rcdUser (getCell st l) → rcdUser (getCell st' l)) ∧
    (∀ l, (getMsg st' r).tr = some l → rcdUser (getCell st' l)) := by
  unfold fmoStep at hok
  simp only [hu, if_true, Bool.false_eq_true, if_false] at hok
  set st1 := setMsgF st r (fun mm => { mm with role := "user" }) with hst1
  have hm1 : getMsg st1 r = { getMsg st r with role := "user" } :=
    getMsg_setMsgF_self st r _ hr
  cases htr : (getMsg st1 r).tr with
  | none =>
    rw [htr] at hok
    injection hok with h1
    injection h1 with hst hrest
    injection hrest with hclean hprev
    subst hst hclean hprev
    refine ⟨rfl, rfl, length_msgs_setMsgF .., ?_, ?_, ?_, ?_, ?_⟩
    · intro y hy
      exact getMsg_setMsgF_ne st r y _ hy
    · unfold roleOf
      rw [hm1]
    · rw [hm1]
    · intro l hl
      exact hl
    · intro l hl
      rw [htr] at hl
      cases hl
  | some l =>
    rw [htr] at hok
    have hok2 : (if getCell st1 l ≠ [] then
        match setAllUser (getCell st1 l) with
        | Except.error e => Except.error e
        | Except.ok items => Except.ok (setCell st1 l items, r :: clean, true)
      else Except.ok (st1, r :: clean, true)) = Except.ok (st', clean', prev') := hok
    clear hok
    by_cases hcell : getCell st1 l ≠ []
    · rw [if_pos hcell] at hok2
      cases hsa : setAllUser (getCell st1 l) with
      | error e =>
        rw [hsa] at hok2
        cases hok2
      | ok items =>
        rw [hsa] at hok2
        rename' hok2 => hok
        injection hok with h1
        injection h1 with hst hrest
        injection hrest with hclean hprev
        subst hst hclean hprev
        have hlt : l < st1.lists.length := getCell_ne_nil_lt hcell
        have hitems : rcdUser items := rcdUser_of_allUserRcd (setAllUser_ok_allUser hsa)
        refine ⟨rfl, rfl, ?_, ?_, ?_, ?_, ?_, ?_⟩
        · rw [msgs_setCell]
          exact length_msgs_setMsgF ..
        · intro y hy
          rw [getMsg_setCell]
          exact getMsg_setMsgF_ne st r y _ hy
        · unfold roleOf
          rw [getMsg_setCell, hm1]
        · rw [getMsg_setCell, hm1]
        · intro l' hl'
          rcases getCell_setCell_cases st1 l items l' with hc | hc
          · rw [hc]
            exact hitems
          · rw [hc]
            exact hl'
        · intro l0 hl0
          rw [getMsg_setCell, htr] at hl0
          injection hl0 with hle
          subst hle
          rw [getCell_setCell_self st1 l items hlt]
          exact hitems
    · rw [if_neg hcell] at hok2
      injection hok2 with h1
      injection h1 with hst hrest
      injection hrest with hclean hprev
      subst hst hclean hprev
      have hempty : getCell st1 l = [] := not_not.mp hcell
      refine ⟨rfl, rfl, length_msgs_setMsgF .., ?_, ?_, ?_, ?_, ?_⟩
      · intro y hy
        exact getMsg_setMsgF_ne st r y _ hy
      · unfold roleOf
        rw [hm1]
      · rw [hm1]
      · intro l' hl'
        exact hl'
      · intro l0 hl0
        rw [htr] at hl0
        injection hl0 with hle
        subst hle
        rw [hempty]
        exact rcdUser_nil

theorem roleOf_setCell (st : Store) (l : Nat) (xs : List TRItem) (y : Nat) :
    roleOf (setCell st l xs) y = roleOf st y := rfl

theorem roleOf_setMsgF_append (st : Store) (r : Nat) (c : String) (y : Nat) :
    roleOf (setMsgF st r (fun hm => { hm with content := hm.content ++ c })) y
      = roleOf st y := by
  apply roleOf_setMsgF_of_role_eq
  intro m
  rfl

theorem tr_setMsgF_append (st : Store) (r : Nat) (c : String) (y : Nat) :
    (getMsg (setMsgF st r (fun hm => { hm with content := hm.content ++ c })) y).tr
      = (getMsg st y).tr := by
  apply tr_setMsgF_of_tr_eq
  intro m
  rfl

theorem roleOf_setMsgF_settr (st : Store) (r : Nat) (o : Option Nat) (y : Nat) :
    roleOf (setMsgF st r (fun hm => { hm with tr := o })) y = roleOf st y := by
  apply roleOf_setMsgF_of_role_eq
  intro m
  rfl

/-- The line-172-181 branch (merge into `cleanmessages[-1]`): facts about the
store the step leaves behind. -/
theorem fmoStep_merge {st st' : Store} {hd : Nat} {ctl clean' : List Nat}
    {r : Nat} {prev' : Bool}
    (hu : isUserish (getMsg st r).role = true)
    (hok : fmoStep st (hd :: ctl) true r = .ok (st', clean', prev')) :
    clean' = hd :: ctl ∧ prev' = true ∧
    st'.msgs.length = st.msgs.length ∧
    (∀ y, roleOf st' y = roleOf st y) ∧
    (∀ y, y ≠ hd → getMsg st' y = getMsg st y) ∧
    (∀ l, rcdUser (getCell st l) → rcdUser (getCell st' l)) ∧
    (∀ l, (getMsg st' hd).tr = some l →
      (getMsg st hd).tr = some l ∨ rcdUser (getCell st' l)) := by
  unfold fmoStep at hok
  simp only [hu, if_true] at hok
  set st1 := setMsgF st hd
    (fun hm => { hm with content := hm.content ++ (getMsg st r).content }) with hst1
  have hrole1 : ∀ y, roleOf st1 y = roleOf st y := by
    intro y
    rw [hst1]
    exact roleOf_setMsgF_append st hd _ y
  have htr1 : ∀ y, (getMsg st1 y).tr = (getMsg st y).tr := by
    intro y
    rw [hst1]
    exact tr_setMsgF_append st hd _ y
  have hne1 : ∀ y, y ≠ hd → getMsg st1 y = getMsg st y := by
    intro y hy
    rw [hst1]
    exact getMsg_setMsgF_ne st hd y _ hy
  have hcells1 : ∀ l, getCell st1 l = getCell st l := by
    intro l
    rw [hst1]
    exact getCell_setMsgF st hd _ l
  have hlen1 : st1.msgs.length = st.msgs.length := by
    rw [hst1]
    exact length_msgs_setMsgF ..
  cases htr : (getMsg st r).tr with
  | none =>
    rw [htr] at hok
    injection hok with h1
    injection h1 with hst hrest
    injection hrest with hclean hprev
    subst hst hclean hprev
    refine ⟨rfl, rfl, hlen1, hrole1, hne1, ?_, ?_⟩
    · intro l hl
      rw [hcells1]
      exact hl
    · intro l hl
      rw [htr1] at hl
      exact Or.inl hl
  | some l =>
    rw [htr] at hok
    have hok2 : (if getCell st1 l ≠ [] then
        match setAllUser (getCell st1 l) with
        | Except.error e => Except.error e
        | Except.ok items =>
          match (getMsg (setCell st1 l items) hd).tr with
          | some l2 =>
            if getCell (setCell st1 l items) l2 ≠ [] then
              Except.ok (setCell (setCell st1 l items) l2
                (getCell (setCell st1 l items) l2 ++ [TRItem.nref l]), hd :: ctl, true)
            else
              Except.ok (setMsgF (setCell st1 l items) hd
                (fun hm => { hm with tr := some l }), hd :: ctl, true)
          | none =>
            Except.ok (setMsgF (setCell st1 l items) hd
              (fun hm => { hm with tr := some l }), hd :: ctl, true)
      else Except.ok (st1, hd :: ctl, true)) = Except.ok (st', clean', prev') := hok
    clear hok
    by_cases hcell : getCell st1 l ≠ []
    · rw [if_pos hcell] at hok2
      cases hsa : setAllUser (getCell st1 l) with
      | error e =>
        rw [hsa] at hok2
        cases hok2
      | ok items =>
        rw [hsa] at hok2
        have hitems : rcdUser items := rcdUser_of_allUserRcd (setAllUser_ok_allUser hsa)
        have hllt : l < st1.lists.length := getCell_ne_nil_lt hcell
        have mono2 : ∀ l', rcdUser (getCell st l') →
            rcdUser (getCell (setCell st1 l items) l') := by
          intro l' h'
          rcases getCell_setCell_cases st1 l items l' with hc | hc
          · rw [hc]
            exact hitems
          · rw [hc, hcells1]
            exact h'
        have hcell2l : getCell (setCell st1 l items) l = items :=
          getCell_setCell_self st1 l items hllt
        have htr2eq : ∀ y, (getMsg (setCell st1 l items) y).tr = (getMsg st y).tr := by
          intro y
          rw [getMsg_setCell]
          exact htr1 y
        have hok3 : (match (getMsg (setCell st1 l items) hd).tr with
          | some l2 =>
            if getCell (setCell st1 l items) l2 ≠ [] then
              Except.ok (setCell (setCell st1 l items) l2
                (getCell (setCell st1 l items) l2 ++ [TRItem.nref l]), hd :: ctl, true)
            else
              Except.ok (setMsgF (setCell st1 l items) hd
                (fun hm => { hm with tr := some l }), hd :: ctl, true)
          | none =>
            Except.ok (setMsgF (setCell st1 l items) hd
              (fun hm => { hm with tr := some l }), hd :: ctl, true))
            = Except.ok (st', clean', prev') := hok2
        clear hok2
        cases htr2 : (getMsg (setCell st1 l items) hd).tr with
        | some l2 =>
          rw [htr2] at hok3
          have hok4 : (if getCell (setCell st1 l items) l2 ≠ [] then
              Except.ok (setCell (setCell st1 l items) l2
                (getCell (setCell st1 l items) l2 ++ [TRItem.nref l]), hd :: ctl, true)
            else
              Except.ok (setMsgF (setCell st1 l items) hd
                (fun hm => { hm with tr := some l }), hd :: ctl, true))
              = Except.ok (st', clean', prev') := hok3
          clear hok3
          by_cases hcell2 : getCell (setCell st1 l items) l2 ≠ []
          · rw [if_pos hcell2] at hok4
            injection hok4 with h1
            injection h1 with hst hrest
            injection hrest with hclean hprev
            subst hst hclean hprev
            have hl2lt : l2 < (setCell st1 l items).lists.length := getCell_ne_nil_lt hcell2
            refine ⟨rfl, rfl, ?_, ?_, ?_, ?_, ?_⟩
            · rw [msgs_setCell, msgs_setCell]
              exact hlen1
            · intro y
              rw [roleOf_setCell, roleOf_setCell]
              exact hrole1 y
            · intro y hy
              rw [getMsg_setCell, getMsg_setCell]
              exact hne1 y hy
            · intro l' h'
              by_cases he : l' = l2
              · subst he
                rw [getCell_setCell_self _ _ _ hl2lt]
                exact rcdUser_append_nref (mono2 l' h')
              · rw [getCell_setCell_ne _ _ _ _ he]
                exact mono2 l' h'
            · intro l0 hl0
              rw [getMsg_setCell, htr2eq] at hl0
              exact Or.inl hl0
          · rw [if_neg hcell2] at hok4
            injection hok4 with h1
            injection h1 with hst hrest
            injection hrest with hclean hprev
            subst hst hclean hprev
            refine ⟨rfl, rfl, ?_, ?_, ?_, ?_, ?_⟩
            · rw [length_msgs_setMsgF, msgs_setCell]
              exact hlen1
            · intro y
              rw [roleOf_setMsgF_settr, roleOf_setCell]
              exact hrole1 y
            · intro y hy
              rw [getMsg_setMsgF_ne _ _ _ _ hy, getMsg_setCell]
              exact hne1 y hy
            · intro l' h'
              rw [getCell_setMsgF]
              exact mono2 l' h'
            · intro l0 hl0
              by_cases hhd : hd < (setCell st1 l items).msgs.length
              · rw [getMsg_setMsgF_self _ _ _ hhd] at hl0
                injection hl0 with hle
                subst hle
                right
                rw [getCell_setMsgF, hcell2l]
                exact hitems
              · rw [setMsgF_oob _ _ _ (Nat.le_of_not_lt hhd)] at hl0
                rw [htr2eq] at hl0
                exact Or.inl hl0
        | none =>
          rw [htr2] at hok3
          injection hok3 with h1
          injection h1 with hst hrest
          injection hrest with hclean hprev
          subst hst hclean hprev
          refine ⟨rfl, rfl, ?_, ?_, ?_, ?_, ?_⟩
          · rw [length_msgs_setMsgF, msgs_setCell]
            exact hlen1
          · intro y
            rw [roleOf_setMsgF_settr, roleOf_setCell]
            exact hrole1 y
          · intro y hy
            rw [getMsg_setMsgF_ne _ _ _ _ hy, getMsg_setCell]
            exact hne1 y hy
          · intro l' h'
            rw [getCell_setMsgF]
            exact mono2 l' h'
          · intro l0 hl0
            by_cases hhd : hd < (setCell st1 l items).msgs.length
            · rw [getMsg_setMsgF_self _ _ _ hhd] at hl0
              injection hl0 with hle
              subst hle
              right
              rw [getCell_setMsgF, hcell2l]
              exact hitems
            · rw [setMsgF_oob _ _ _ (Nat.le_of_not_lt hhd)] at hl0
              rw [htr2] at hl0
              cases hl0
    · rw [if_neg hcell] at hok2
      injection hok2 with h1
      injection h1 with hst hrest
      injection hrest with hclean hprev
      subst hst hclean hprev
      refine ⟨rfl, rfl, hlen1, hrole1, hne1, ?_, ?_⟩
      · intro l' hl'
        rw [hcells1]
        exact hl'
      · intro l0 hl0
        rw [htr1] at hl0
        exact Or.inl hl0

/-- The master invariant theorem: a successful run of the loop leaves an
accumulator with no two adjacent user-like roles, no `tool` role, and with
every user message's `tool_responses` records rewritten to role `user`. -/
theorem fmoLoop_inv {refs : List Nat} : ∀ {st : Store} {clean : List Nat}
    {prev : Bool} {cf : List Nat} {stF : Store},
    LoopInv st refs clean prev →
    fmoLoop st refs clean prev = .ok (cf, stF) →
    List.Chain' noTwoUserish (cf.map (roleOf stF)) ∧
    (∀ x ∈ cf, roleOf stF x ≠ "tool") ∧
    (∀ x ∈ cf, roleOf stF x = "user" →
      ∀ l, (getMsg stF x).tr = some l → rcdUser (getCell stF l)) := by
  induction refs with
  | nil =>
    intro st clean prev cf stF hinv h
    rw [fmoLoop] at h
    injection h with h1
    injection h1 with hclean hst
    subst hclean hst
    exact ⟨hinv.chain, hinv.no_tool, hinv.tr_user⟩
  | cons r rest ih =>
    intro st clean prev cf stF hinv h
    rw [fmoLoop] at h
    cases hstep : fmoStep st clean prev r with
    | error e =>
      rw [hstep] at h
      cases h
    | ok res =>
      obtain ⟨st', clean', prev'⟩ := res
      rw [hstep] at h
      by_cases hu : isUserish (getMsg st r).role = true
      · cases prev with
        | false =>
          have hr : r < st.msgs.length := hinv.bounds r (by simp)
          obtain ⟨hc', hp', hlen, hne, hrole, htrsame, hmono, htrr⟩ :=
            fmoStep_emit hu hr hstep
          subst hc' hp'
          have hrnotclean : r ∉ clean := hinv.disj r (by simp)
          have hcroles : ∀ y ∈ clean, roleOf st' y = roleOf st y := by
            intro y hy
            unfold roleOf
            rw [hne y (fun hc => hrnotclean (hc ▸ hy))]
          refine ih ?_ h
          refine ⟨?_, ?_, ?_, ?_, ?_, ?_, ?_, ?_, ?_⟩
          · intro x hx
            rw [hlen]
            exact hinv.bounds x (by simp [hx])
          · exact hinv.ndp.of_cons
          · exact List.nodup_cons.mpr ⟨hrnotclean, hinv.cndp⟩
          · intro x hx
            rw [List.mem_cons, not_or]
            refine ⟨?_, hinv.disj x (by simp [hx])⟩
            intro hxr
            subst hxr
            exact (List.nodup_cons.mp hinv.ndp).1 hx
          · intro _
            exact ⟨r, clean, rfl, hrole⟩
          · intro hfalse
            cases hfalse
          · rw [List.map_cons]
            rw [List.map_congr_left hcroles]
            rcases hinv.prev_false rfl with hnil | ⟨hd, tl, hcl, hhd⟩
            · subst hnil
              simp
            · subst hcl
              refine List.chain'_cons.mpr ⟨?_, hinv.chain⟩
              intro ⟨_, hb⟩
              rw [hhd] at hb
              cases hb
          · intro x hx
            rcases List.mem_cons.mp hx with hxr | hxc
            · subst hxr
              rw [hrole]
              decide
            · rw [hcroles x hxc]
              exact hinv.no_tool x hxc
          · intro x hx hxrole l hl
            rcases List.mem_cons.mp hx with hxr | hxc
            · subst hxr
              exact htrr l hl
            · have hxnr : x ≠ r := fun hc => hrnotclean (hc ▸ hxc)
              rw [hne x hxnr] at hl
              have hold : rcdUser (getCell st l) := by
                refine hinv.tr_user x hxc ?_ l hl
                rw [← hcroles x hxc]
                exact hxrole
              exact hmono l hold
        | true =>
          obtain ⟨hd, tl, hcl, hhd⟩ := hinv.prev_true rfl
          subst hcl
          obtain ⟨hc', hp', hlen, hroles, hne, hmono, htrr⟩ := fmoStep_merge hu hstep
          subst hc' hp'
          refine ih ?_ h
          refine ⟨?_, ?_, ?_, ?_, ?_, ?_, ?_, ?_, ?_⟩
          · intro x hx
            rw [hlen]
            exact hinv.bounds x (by simp [hx])
          · exact hinv.ndp.of_cons
          · exact hinv.cndp
          · intro x hx
            exact hinv.disj x (by simp [hx])
          · intro _
            exact ⟨hd, tl, rfl, by rw [hroles hd]; exact hhd⟩
          · intro hfalse
            cases hfalse
          · rw [List.map_congr_left (fun y _ => hroles y)]
            exact hinv.chain
          · intro x hx
            rw [hroles x]
            exact hinv.no_tool x hx
          · intro x hx hxrole l hl
            rw [hroles x] at hxrole
            by_cases hxhd : x = hd
            · subst hxhd
              rcases htrr l hl with hsame | hnew
              · have hold := hinv.tr_user x hx hxrole l hsame
                exact hmono l hold
              · exact hnew
            · rw [hne x hxhd] at hl
              exact hmono l (hinv.tr_user x hx hxrole l hl)
      · have hu' : isUserish (getMsg st r).role = false := by
          cases hb : isUserish (getMsg st r).role
          · rfl
          · exact absurd hb hu
        have hskip := (fmoStep_skip st clean prev r hu').symm.trans hstep
        injection hskip with h1
        injection h1 with hst hrest
        injection hrest with hclean hprev
        subst hst hclean hprev
        refine ih ?_ h
        have hrnotclean : r ∉ clean := hinv.disj r (by simp)
        refine ⟨?_, ?_, ?_, ?_, ?_, ?_, ?_, ?_, ?_⟩
        · intro x hx
          exact hinv.bounds x (by simp [hx])
        · exact hinv.ndp.of_cons
        · exact List.nodup_cons.mpr ⟨hrnotclean, hinv.cndp⟩
        · intro x hx
          rw [List.mem_cons, not_or]
          refine ⟨?_, hinv.disj x (by simp [hx])⟩
          intro hxr
          subst hxr
          exact (List.nodup_cons.mp hinv.ndp).1 hx
        · intro htrue
          cases htrue
        · intro _
          exact Or.inr ⟨r, clean, rfl, hu'⟩
        · rw [List.map_cons]
          refine List.chain'_cons'.mpr ⟨?_, hinv.chain⟩
          intro z _ ⟨ha, _⟩
          have ha' : isUserish (getMsg st r).role = true := ha
          rw [hu'] at ha'
          cases ha' 
        · intro x hx
          rcases List.mem_cons.mp hx with hxr | hxc
          · subst hxr
            exact ne_tool_of_not_userish hu'
          · exact hinv.no_tool x hxc
        · intro x hx hxrole l hl
          rcases List.mem_cons.mp hx with hxr | hxc
          · subst hxr
            exact absurd hxrole (ne_user_of_not_userish hu')
          · exact hinv.tr_user x hxc hxrole l hl

theorem length_allocMsgs (vs : List MsgVal) : ∀ i, (allocMsgs vs i).length = vs.length := by
  induction vs with
  | nil => intro i; rfl
  | cons v rest ih =>
    intro i
    rw [allocMsgs, List.length_cons, ih]
    rfl

theorem length_msgs_allocStore (vs : List MsgVal) :
    (allocStore vs).msgs.length = vs.length := length_allocMsgs vs 0

/-- The invariant holds at the start of the loop on a freshly allocated
conversation. -/
theorem loopInv_start (m : List MsgVal) :
    LoopInv (allocStore m) (List.range m.length) [] false := by
  refine ⟨?_, List.nodup_range m.length, List.nodup_nil, ?_, ?_, ?_, ?_, ?_, ?_⟩
  · intro x hx
    rw [length_msgs_allocStore]
    exact List.mem_range.mp hx
  · intro x _
    exact List.not_mem_nil x
  · intro htrue
    cases htrue
  · intro _
    exact Or.inl rfl
  · exact List.chain'_nil
  · intro x hx
    cases hx
  · intro x hx
    cases hx

/-! ## Claim theorems for the Message Normalizer (C5, C6), `add_tools` (C9)
and `__init__` (C10) -/

/-- Claim C1: a successful normalization never returns two adjacent messages
whose role is `user` or `tool`, and no returned message has role `tool`. -/
theorem c1_no_adjacent_userish_no_tool (m fi out : List MsgVal)
    (h : fix_message_ownership m = .ok (fi, out)) :
    List.Chain' (fun a b => ¬((a.role = "user" ∨ a.role = "tool") ∧
      (b.role = "user" ∨ b.role = "tool"))) out ∧
    ∀ v ∈ out, v.role ≠ "tool" := by
  dsimp only [fix_message_ownership] at h
  cases hrun : fmoLoop (allocStore m) (List.range m.length) [] false with
  | error e =>
    rw [hrun] at h
    cases h
  | ok res =>
    obtain ⟨cleanRev, st'⟩ := res
    rw [hrun] at h
    injection h with h1
    injection h1 with hfi hout
    obtain ⟨hchain, hnotool, _⟩ := fmoLoop_inv (loopInv_start m) hrun
    constructor
    · have hc1 : List.Chain' (fun a b => noTwoUserish (roleOf st' a) (roleOf st' b))
          cleanRev := (List.chain'_map (roleOf st')).mp hchain
      have hc2 : List.Chain' (fun a b => noTwoUserish (roleOf st' b) (roleOf st' a))
          cleanRev := hc1.imp (fun a b hab ⟨hb2, ha2⟩ => hab ⟨ha2, hb2⟩)
      have hc3 : List.Chain' (fun a b => noTwoUserish (roleOf st' a) (roleOf st' b))
          cleanRev.reverse := by
        rw [List.chain'_reverse]
        exact hc2
      rw [← hout]
      refine (List.chain'_map _).mpr (hc3.imp ?_)
      intro a b hab ⟨hA, hB⟩
      exact hab ⟨isUserish_iff.mpr hA, isUserish_iff.mpr hB⟩
    · intro v hv
      rw [← hout] at hv
      obtain ⟨x, hx, hvx⟩ := List.mem_map.mp hv
      rw [← hvx]
      exact hnotool x (List.mem_reverse.mp hx)

/-- Witness for C1 at a concrete conversation. -/
theorem c1_no_adjacent_userish_no_tool_witness :
    List.Chain' (fun a b : MsgVal => ¬((a.role = "user" ∨ a.role = "tool") ∧
      (b.role = "user" ∨ b.role = "tool"))) [⟨"user", "X", none⟩] ∧
    ∀ v ∈ ([⟨"user", "X", none⟩] : List MsgVal), v.role ≠ "tool" :=
  c1_no_adjacent_userish_no_tool [⟨"tool", "X", none⟩]
    [⟨"user", "X", none⟩] [⟨"user", "X", none⟩] (by rfl)

/-- Counterexample to claim C5 as stated: when the incoming merged message
and the previous output message both carry `tool_responses`, line 179 appends
the incoming *list* as a single element, so the resulting `tool_responses` is
a sequence of sequences, not the claimed flat sequence of response records. -/
theorem c5_counterexample_nested_not_flat :
    fix_message_ownership
        [⟨"user", "A", some [.rcd "tool" "r1"]⟩, ⟨"tool", "B", some [.rcd "tool" "r2"]⟩]
      = .ok ([⟨"user", "AB", some [.rcd "user" "r1", .nested [.rcd "user" "r2"]]⟩,
              ⟨"tool", "B", some [.rcd "user" "r2"]⟩],
             [⟨"user", "AB", some [.rcd "user" "r1", .nested [.rcd "user" "r2"]]⟩]) ∧
    ¬ flatRecords [.rcd "user" "r1", .nested [.rcd "user" "r2"]] := by
  refine ⟨by rfl, fun h => ?_⟩
  obtain ⟨ro, co, hco⟩ := h (.nested [.rcd "user" "r2"]) (by simp)
  cases hco

theorem setAllUser_map_rcd (rs : List (String × String)) :
    setAllUser (rs.map (fun p => TRItem.rcd p.1 p.2))
      = .ok (rs.map (fun p => TRItem.rcd "user" p.2)) := by
  induction rs with
  | nil => rfl
  | cons p rest ih =>
    show (do
      let it' ← setRespUser (TRItem.rcd p.1 p.2)
      let rest' ← setAllUser (rest.map (fun q : String × String => TRItem.rcd q.1 q.2))
      (Except.ok (it' :: rest') : Except Unit (List TRItem))) = _
    rw [ih]
    rfl

/-- Claim C5 as amended, as a universal contract over every merge event.
For every store, every accumulated output (previous output message `hd`,
rest `ctl`), and every incoming user-like message `r` (role `user` or
`tool`), the line-172-181 merge — the `previous_was_user` branch of the
loop body, taken at any position of any conversation —
(i) concatenates the incoming content directly onto the previous output
message's content with no separator,
(ii) changes nothing else when the incoming `tool_responses` is absent or
empty, and
(iii) when the incoming `tool_responses` is a non-empty list of response
records (arbitrary roles, contents and length), rewrites every record's
role to `user` and attaches the rewritten list *flat* (the list itself)
when the previous message had no or empty `tool_responses`, but appends it
as *one single nested element* when the previous message already had a
non-empty `tool_responses`.
The second top-level conjunct is the amended claim's
`[user A, tool B, assistant C]` example.  (`hd < st.msgs.length` says the
previous output message exists; the `l2 ≠ l` hypothesis says the two
messages hold distinct `tool_responses` list objects, which is the case for
distinct message dicts.) -/
theorem c5_amended_merge_contract :
    (∀ (st : Store) (hd : Nat) (ctl : List Nat) (r : Nat) (st' : Store)
        (clean' : List Nat) (prev' : Bool),
      isUserish (getMsg st r).role = true →
      hd < st.msgs.length →
      fmoStep st (hd :: ctl) true r = .ok (st', clean', prev') →
      clean' = hd :: ctl ∧ prev' = true ∧
      (getMsg st' hd).content = (getMsg st hd).content ++ (getMsg st r).content ∧
      (((getMsg st r).tr = none ∨
          (∃ l, (getMsg st r).tr = some l ∧ getCell st l = [])) →
        (getMsg st' hd).tr = (getMsg st hd).tr ∧ st'.lists = st.lists) ∧
      (∀ (l : Nat) (rs : List (String × String)),
        (getMsg st r).tr = some l →
        getCell st l = rs.map (fun p => TRItem.rcd p.1 p.2) →
        rs ≠ [] →
        (∀ l2, (getMsg st hd).tr = some l2 → l2 ≠ l) →
        getCell st' l = rs.map (fun p => TRItem.rcd "user" p.2) ∧
        (((getMsg st hd).tr = none ∨
            (∃ l2, (getMsg st hd).tr = some l2 ∧ getCell st l2 = [])) →
          (getMsg st' hd).tr = some l) ∧
        (∀ l2, (getMsg st hd).tr = some l2 → getCell st l2 ≠ [] →
          (getMsg st' hd).tr = some l2 ∧
          getCell st' l2 = getCell st l2 ++ [TRItem.nref l]))) ∧
    (∀ A B C : String,
      fix_message_ownership
          [⟨"user", A, none⟩, ⟨"tool", B, none⟩, ⟨"assistant", C, none⟩]
        = .ok ([⟨"user", A ++ B, none⟩, ⟨"tool", B, none⟩, ⟨"assistant", C, none⟩],
               [⟨"user", A ++ B, none⟩, ⟨"assistant", C, none⟩])) := by
  constructor
  · intro st hd ctl r st' clean' prev' hu hhd hok
    unfold fmoStep at hok
    simp only [hu, if_true] at hok
    set st1 := setMsgF st hd
      (fun hm => { hm with content := hm.content ++ (getMsg st r).content }) with hst1
    have hcont1 : (getMsg st1 hd).content
        = (getMsg st hd).content ++ (getMsg st r).content := by
      rw [hst1, getMsg_setMsgF_self st hd _ hhd]
    have htr1 : ∀ y, (getMsg st1 y).tr = (getMsg st y).tr := by
      intro y
      rw [hst1]
      exact tr_setMsgF_append st hd _ y
    have hcells1 : ∀ l, getCell st1 l = getCell st l := by
      intro l
      rw [hst1]
      exact getCell_setMsgF st hd _ l
    have hlists1 : st1.lists = st.lists := by
      rw [hst1]
      rfl
    have hlen1 : st1.msgs.length = st.msgs.length := by
      rw [hst1]
      exact length_msgs_setMsgF ..
    cases htr : (getMsg st r).tr with
    | none =>
      rw [htr] at hok
      injection hok with h1
      injection h1 with hst hrest
      injection hrest with hclean hprev
      subst hst hclean hprev
      refine ⟨rfl, rfl, hcont1, ?_, ?_⟩
      · intro _
        exact ⟨htr1 hd, hlists1⟩
      · intro l rs hsome
        cases hsome
    | some l =>
      rw [htr] at hok
      have hok2 : (if getCell st1 l ≠ [] then
          match setAllUser (getCell st1 l) with
          | Except.error e => Except.error e
          | Except.ok items =>
            match (getMsg (setCell st1 l items) hd).tr with
            | some l2 =>
              if getCell (setCell st1 l items) l2 ≠ [] then
                Except.ok (setCell (setCell st1 l items) l2
                  (getCell (setCell st1 l items) l2 ++ [TRItem.nref l]), hd :: ctl, true)
              else
                Except.ok (setMsgF (setCell st1 l items) hd
                  (fun hm => { hm with tr := some l }), hd :: ctl, true)
            | none =>
              Except.ok (setMsgF (setCell st1 l items) hd
                (fun hm => { hm with tr := some l }), hd :: ctl, true)
        else Except.ok (st1, hd :: ctl, true)) = Except.ok (st', clean', prev') := hok
      clear hok
      by_cases hcell : getCell st1 l ≠ []
      · rw [if_pos hcell] at hok2
        cases hsa : setAllUser (getCell st1 l) with
        | error e =>
          rw [hsa] at hok2
          cases hok2
        | ok items =>
          rw [hsa] at hok2
          have hllt : l < st1.lists.length := getCell_ne_nil_lt hcell
          have hcell2l : getCell (setCell st1 l items) l = items :=
            getCell_setCell_self st1 l items hllt
          have htr2eq : ∀ y, (getMsg (setCell st1 l items) y).tr = (getMsg st y).tr := by
            intro y
            rw [getMsg_setCell]
            exact htr1 y
          have hcont2 : ∀ y, (getMsg (setCell st1 l items) y).content
              = (getMsg st1 y).content := by
            intro y
            rw [getMsg_setCell]
          have hlen2 : (setCell st1 l items).msgs.length = st.msgs.length := by
            rw [msgs_setCell]
            exact hlen1
          have hitems : ∀ (rs : List (String × String)),
              getCell st l = rs.map (fun p => TRItem.rcd p.1 p.2) →
              items = rs.map (fun p => TRItem.rcd "user" p.2) := by
            intro rs hmap
            rw [hcells1, hmap, setAllUser_map_rcd] at hsa
            injection hsa with hi
            exact hi.symm
          have hok3 : (match (getMsg (setCell st1 l items) hd).tr with
            | some l2 =>
              if getCell (setCell st1 l items) l2 ≠ [] then
                Except.ok (setCell (setCell st1 l items) l2
                  (getCell (setCell st1 l items) l2 ++ [TRItem.nref l]), hd :: ctl, true)
              else
                Except.ok (setMsgF (setCell st1 l items) hd
                  (fun hm => { hm with tr := some l }), hd :: ctl, true)
            | none =>
              Except.ok (setMsgF (setCell st1 l items) hd
                (fun hm => { hm with tr := some l }), hd :: ctl, true))
              = Except.ok (st', clean', prev') := hok2
          clear hok2
          cases htr2 : (getMsg (setCell st1 l items) hd).tr with
          | none =>
            rw [htr2] at hok3
            injection hok3 with h1
            injection h1 with hst hrest
            injection hrest with hclean hprev
            subst hst hclean hprev
            have hhd2 : hd < (setCell st1 l items).msgs.length := by
              rw [hlen2]
              exact hhd
            have hself := getMsg_setMsgF_self (setCell st1 l items) hd
              (fun hm => { hm with tr := some l }) hhd2
            have hhdtr : (getMsg st hd).tr = none := by
              rw [← htr2eq hd]
              exact htr2
            refine ⟨rfl, rfl, ?_, ?_, ?_⟩
            · rw [hself]
              show (getMsg (setCell st1 l items) hd).content
                = (getMsg st hd).content ++ (getMsg st r).content
              rw [hcont2]
              exact hcont1
            · intro hfal
              rcases hfal with hn | ⟨l', hl', hc'⟩
              · cases hn
              · injection hl' with hle
                subst hle
                rw [← hcells1] at hc'
                exact absurd hc' hcell
            · intro l0 rs hsome hmap hrs hdist
              injection hsome with hle
              subst hle
              refine ⟨?_, ?_, ?_⟩
              · rw [getCell_setMsgF, hcell2l]
                exact hitems rs hmap
              · intro _
                rw [hself]
              · intro l2 hl2 _
                rw [hhdtr] at hl2
                cases hl2
          | some l2 =>
            rw [htr2] at hok3
            have hhdtr : (getMsg st hd).tr = some l2 := by
              rw [← htr2eq hd]
              exact htr2
            have hok4 : (if getCell (setCell st1 l items) l2 ≠ [] then
                Except.ok (setCell (setCell st1 l items) l2
                  (getCell (setCell st1 l items) l2 ++ [TRItem.nref l]), hd :: ctl, true)
              else
                Except.ok (setMsgF (setCell st1 l items) hd
                  (fun hm => { hm with tr := some l }), hd :: ctl, true))
                = Except.ok (st', clean', prev') := hok3
            clear hok3
            by_cases hcell2 : getCell (setCell st1 l items) l2 ≠ []
            · rw [if_pos hcell2] at hok4
              injection hok4 with h1
              injection h1 with hst hrest
              injection hrest with hclean hprev
              subst hst hclean hprev
              have hl2lt : l2 < (setCell st1 l items).lists.length :=
                getCell_ne_nil_lt hcell2
              refine ⟨rfl, rfl, ?_, ?_, ?_⟩
              · rw [getMsg_setCell, hcont2]
                exact hcont1
              · intro hfal
                rcases hfal with hn | ⟨l', hl', hc'⟩
                · cases hn
                · injection hl' with hle
                  subst hle
                  rw [← hcells1] at hc'
                  exact absurd hc' hcell
              · intro l0 rs hsome hmap hrs hdist
                injection hsome with hle
                subst hle
                have hne : l2 ≠ l := hdist l2 hhdtr
                have hcellst : getCell (setCell st1 l items) l2 = getCell st l2 := by
                  rw [getCell_setCell_ne st1 l l2 items hne, hcells1]
                refine ⟨?_, ?_, ?_⟩
                · rw [getCell_setCell_ne _ _ _ _ (fun hc => hne hc.symm), hcell2l]
                  exact hitems rs hmap
                · intro hfl
                  rcases hfl with hn | ⟨l2', hl2', hc2'⟩
                  · rw [hhdtr] at hn
                    cases hn
                  · rw [hhdtr] at hl2'
                    injection hl2' with hle2
                    subst hle2
                    rw [← hcellst] at hc2'
                    exact absurd hc2' hcell2
                · intro l2' hl2' hc2'
                  rw [hhdtr] at hl2'
                  injection hl2' with hle2
                  subst hle2
                  refine ⟨?_, ?_⟩
                  · rw [getMsg_setCell, htr2eq]
                    exact hhdtr
                  · rw [getCell_setCell_self _ _ _ hl2lt, hcellst]
            · rw [if_neg hcell2] at hok4
              injection hok4 with h1
              injection h1 with hst hrest
              injection hrest with hclean hprev
              subst hst hclean hprev
              have hhd2 : hd < (setCell st1 l items).msgs.length := by
                rw [hlen2]
                exact hhd
              have hself := getMsg_setMsgF_self (setCell st1 l items) hd
                (fun hm => { hm with tr := some l }) hhd2
              refine ⟨rfl, rfl, ?_, ?_, ?_⟩
              · rw [hself]
                show (getMsg (setCell st1 l items) hd).content
                  = (getMsg st hd).content ++ (getMsg st r).content
                rw [hcont2]
                exact hcont1
              · intro hfal
                rcases hfal with hn | ⟨l', hl', hc'⟩
                · cases hn
                · injection hl' with hle
                  subst hle
                  rw [← hcells1] at hc'
                  exact absurd hc' hcell
              · intro l0 rs hsome hmap hrs hdist
                injection hsome with hle
                subst hle
                have hne : l2 ≠ l := hdist l2 hhdtr
                have hcellst : getCell (setCell st1 l items) l2 = getCell st l2 := by
                  rw [getCell_setCell_ne st1 l l2 items hne, hcells1]
                refine ⟨?_, ?_, ?_⟩
                · rw [getCell_setMsgF, hcell2l]
                  exact hitems rs hmap
                · intro _
                  rw [hself]
                · intro l2' hl2' hc2'
                  rw [hhdtr] at hl2'
                  injection hl2' with hle2
                  subst hle2
                  rw [← hcellst] at hc2'
                  exact absurd (not_not.mp hcell2) hc2'
      · rw [if_neg hcell] at hok2
        injection hok2 with h1
        injection h1 with hst hrest
        injection hrest with hclean hprev
        subst hst hclean hprev
        refine ⟨rfl, rfl, hcont1, ?_, ?_⟩
        · intro _
          exact ⟨htr1 hd, hlists1⟩
        · intro l0 rs hsome hmap hrs hdist
          injection hsome with hle
          subst hle
          exfalso
          have hnil : getCell st1 l = [] := not_not.mp hcell
          rw [hcells1, hmap] at hnil
          cases hrsc : rs with
          | nil => exact hrs hrsc
          | cons p rest =>
            rw [hrsc] at hnil
            exact List.cons_ne_nil _ _ hnil
  · intro A B C
    rfl

/-- Witness for the amended C5 at a concrete nested-case merge: incoming
`tool` message with a two-record `tool_responses`, previous message already
carrying a non-empty list. -/
theorem c5_amended_merge_contract_witness :
    (getMsg c5MergedStore 0).content = "A" ++ "B" ∧
    getCell c5MergedStore 1 = [TRItem.rcd "user" "d1", TRItem.rcd "user" "d2"] ∧
    (getMsg c5MergedStore 0).tr = some 0 ∧
    getCell c5MergedStore 0 = getCell c5NestedStore 0 ++ [TRItem.nref 1] := by
  have h := c5_amended_merge_contract.1 c5NestedStore 0 [] 1 c5MergedStore [0] true
    (by decide) (by decide) (by rfl)
  obtain ⟨-, -, hcont, -, hattach⟩ := h
  have ha := hattach 1 [("x", "d1"), ("y", "d2")] rfl rfl (by decide)
    (by
      intro l2 hl2
      have h0 : some 0 = some l2 := hl2
      injection h0 with he
      subst he
      decide)
  obtain ⟨hcell1, -, hnested⟩ := ha
  have hn := hnested 0 rfl (by decide)
  exact ⟨hcont, hcell1, hn.1, hn.2⟩

/-- Counterexample to claim C6 as stated: the input is *not* left unchanged —
after normalizing the single-message list `[{role: tool, content: X}]`, the
input message object's role reads `user` (line 185 assigns through the same
dict the caller passed in). -/
theorem c6_counterexample_input_mutated :
    fix_message_ownership [⟨"tool", "X", none⟩]
      = .ok ([⟨"user", "X", none⟩], [⟨"user", "X", none⟩]) ∧
    (⟨"user", "X", none⟩ : MsgVal) ≠ ⟨"tool", "X", none⟩ := by
  refine ⟨by rfl, fun h => ?_⟩
  injection h with h1 h2 h3
  exact absurd h1 (by decide)

/-- Claim C6 as amended: the normalizer mutates the input in place — a
`tool`- (or `user`-) role message that starts a user run has its role
rewritten to `user` through the input list, and the returned messages alias
input objects; here the final value of the input message differs from its
original value in the role field. -/
theorem c6_amended_input_mutation (c : String) :
    fix_message_ownership [⟨"tool", c, none⟩]
      = .ok ([⟨"user", c, none⟩], [⟨"user", c, none⟩]) := rfl

/-- Counterexample to claim C7 as stated: normalization is not idempotent on
every conversation.  The first application produces an output message whose
`tool_responses` contains a nested list (line 179); re-normalizing that
output reaches `response['role'] = 'user'` on the nested list element
(line 188), a `TypeError`, so the second application fails instead of
returning the same list. -/
theorem c7_counterexample_second_application_fails :
    fix_message_ownership
        [⟨"user", "A", some [.rcd "tool" "r1"]⟩, ⟨"tool", "B", some [.rcd "tool" "r2"]⟩]
      = .ok ([⟨"user", "AB", some [.rcd "user" "r1", .nested [.rcd "user" "r2"]]⟩,
              ⟨"tool", "B", some [.rcd "user" "r2"]⟩],
             [⟨"user", "AB", some [.rcd "user" "r1", .nested [.rcd "user" "r2"]]⟩]) ∧
    fix_message_ownership [⟨"user", "AB", some [.rcd "user" "r1", .nested [.rcd "user" "r2"]]⟩]
      = .error () :=
  ⟨rfl, rfl⟩

/-- Claim C9 is violated by the code: on *every* recipient, `add_tools`
raises `NameError` before appending anything to the system message or
returning `(False, None)` — line 92 and line 102 call the bare name
`clean_old_tools` (a method, unavailable as a local or global), and the loop
body of line 95 uses the undefined name `tool_list` (line 93 defined
`active_tool_list` instead). -/
theorem c9_add_tools_always_raises_nameError (r : Recipient) :
    add_tools r = .error (.nameError "clean_old_tools") ∨
    add_tools r = .error (.nameError "tool_list") := by
  unfold add_tools
  split
  · dsimp only
    by_cases h : pyInStr tool_list_start_msg r.system_message = true
    · rw [if_pos h]; left; rfl
    · rw [if_neg h]; right; rfl
  · left; rfl

/-- Claim C10: for every combination of constructor arguments, `__init__`
raises `NameError` — the f-string on line 59 evaluates the unbound name
`item` at construction time, so no instance is ever completed. -/
theorem c10_init_always_raises_nameError (verbosity max_num_retrievals : Option Int)
    (llm_config : Option Bool) :
    ToolsforToolless_init verbosity max_num_retrievals llm_config
      = .error (.nameError "item") := by rfl

theorem allocList_flat (tvs : List TRVal) (hf : flatRecords tvs) :
    ∀ ls, allocList tvs ls = (tvs.map trToItem, ls) := by
  induction tvs with
  | nil => intro ls; rfl
  | cons v rest ih =>
    intro ls
    obtain ⟨ro, co, hco⟩ := hf v (by simp)
    subst hco
    show (match allocList rest ls with
      | (its, ls'') => (TRItem.rcd ro co :: its, ls'')) = _
    rw [ih (fun it hit => hf it (by simp [hit])) ls]
    rfl

theorem length_allocCells_flat : ∀ (vs : List MsgVal) (i : Nat)
    (ls : List (List TRItem)), (∀ v ∈ vs, flatMsg v) →
    (allocCells vs i ls).length = ls.length := by
  intro vs
  induction vs with
  | nil => intro i ls _; rfl
  | cons v rest ih =>
    intro i ls hf
    rw [allocCells]
    cases htr : v.tr with
    | none =>
      exact ih (i + 1) ls (fun x hx => hf x (by simp [hx]))
    | some tvs =>
      show (match allocList tvs ls with
        | (items, ls') => allocCells rest (i + 1) (ls'.set i items)).length = ls.length
      rw [allocList_flat tvs (hf v (by simp) tvs htr) ls]
      show (allocCells rest (i + 1) (ls.set i (tvs.map trToItem))).length = ls.length
      rw [ih (i + 1) _ (fun x hx => hf x (by simp [hx]))]
      exact List.length_set ..

theorem getD_allocCells_lt : ∀ (vs : List MsgVal) (i : Nat)
    (ls : List (List TRItem)) (j : Nat), j < i → (∀ v ∈ vs, flatMsg v) →
    (allocCells vs i ls).getD j [] = ls.getD j [] := by
  intro vs
  induction vs with
  | nil => intro i ls j _ _; rfl
  | cons v rest ih =>
    intro i ls j hj hf
    rw [allocCells]
    cases htr : v.tr with
    | none =>
      exact ih (i + 1) ls j (Nat.lt_succ_of_lt hj) (fun x hx => hf x (by simp [hx]))
    | some tvs =>
      show (match allocList tvs ls with
        | (items, ls') => allocCells rest (i + 1) (ls'.set i items)).getD j []
          = ls.getD j []
      rw [allocList_flat tvs (hf v (by simp) tvs htr) ls]
      show (allocCells rest (i + 1) (ls.set i (tvs.map trToItem))).getD j [] = ls.getD j []
      rw [ih (i + 1) _ j (Nat.lt_succ_of_lt hj) (fun x hx => hf x (by simp [hx]))]
      exact getD_set_ne _ _ _ _ _ (Nat.ne_of_lt hj)

theorem getD_allocCells_flat : ∀ (vs : List MsgVal) (i : Nat)
    (ls : List (List TRItem)) (j : Nat) (tvs : List TRVal),
    (∀ v ∈ vs, flatMsg v) → i + vs.length ≤ ls.length → j < vs.length →
    (vs.getD j vdefault).tr = some tvs →
    (allocCells vs i ls).getD (i + j) [] = tvs.map trToItem := by
  intro vs
  induction vs with
  | nil => intro i ls j tvs _ _ hj; cases hj
  | cons v rest ih =>
    intro i ls j tvs hf hlen hj htr
    cases j with
    | zero =>
      have htr0 : v.tr = some tvs := htr
      rw [allocCells, htr0]
      show (match allocList tvs ls with
        | (items, ls') => allocCells rest (i + 1) (ls'.set i items)).getD (i + 0) []
          = tvs.map trToItem
      rw [allocList_flat tvs (hf v (by simp) tvs htr0) ls]
      show (allocCells rest (i + 1) (ls.set i (tvs.map trToItem))).getD i []
        = tvs.map trToItem
      rw [getD_allocCells_lt rest (i + 1) _ i (Nat.lt_succ_self i)
        (fun x hx => hf x (by simp [hx]))]
      have hilt : i < ls.length := by
        rw [List.length_cons] at hlen
        omega
      exact getD_set_self _ _ _ _ hilt
    | succ j' =>
      rw [allocCells]
      have harith : i + (j' + 1) = (i + 1) + j' := by omega
      have hih : ∀ ls2 : List (List TRItem), (i + 1) + rest.length ≤ ls2.length →
          (allocCells rest (i + 1) ls2).getD ((i + 1) + j') [] = tvs.map trToItem := by
        intro ls2 hl2
        exact ih (i + 1) ls2 j' tvs (fun x hx => hf x (by simp [hx])) hl2
          (Nat.lt_of_succ_lt_succ hj) htr
      cases htrv : v.tr with
      | none =>
        show (allocCells rest (i + 1) ls).getD (i + (j' + 1)) [] = tvs.map trToItem
        rw [harith]
        apply hih ls
        rw [List.length_cons] at hlen
        omega
      | some tvs0 =>
        show (match allocList tvs0 ls with
          | (items, ls') => allocCells rest (i + 1) (ls'.set i items)).getD (i + (j' + 1)) []
            = tvs.map trToItem
        rw [allocList_flat tvs0 (hf v (by simp) tvs0 htrv) ls]
        show (allocCells rest (i + 1) (ls.set i (tvs0.map trToItem))).getD (i + (j' + 1)) []
          = tvs.map trToItem
        rw [harith]
        apply hih
        rw [List.length_set]
        rw [List.length_cons] at hlen
        omega

theorem getD_allocMsgs : ∀ (vs : List MsgVal) (i j : Nat), j < vs.length →
    (allocMsgs vs i).getD j mdefault =
      ⟨(vs.getD j vdefault).role, (vs.getD j vdefault).content,
        ((vs.getD j vdefault).tr).map (fun _ => i + j)⟩ := by
  intro vs
  induction vs with
  | nil => intro i j hj; cases hj
  | cons v rest ih =>
    intro i j hj
    cases j with
    | zero =>
      rw [allocMsgs]
      rfl
    | succ j' =>
      rw [allocMsgs]
      have := ih (i + 1) j' (Nat.lt_of_succ_lt_succ hj)
      have harith : i + (j' + 1) = (i + 1) + j' := by omega
      rw [harith]
      exact this

theorem resolveItem_trToItem_flat {it : TRVal} (h : ∃ ro co, it = TRVal.rcd ro co)
    (ls : List (List TRItem)) (fuel : Nat) :
    resolveItem ls fuel (trToItem it) = it := by
  obtain ⟨ro, co, hco⟩ := h
  subst hco
  cases fuel <;> rfl

theorem resolveMsg_allocStore_flat (vs : List MsgVal) (fuel : Nat) (j : Nat)
    (hj : j < vs.length) (hf : ∀ v ∈ vs, flatMsg v) :
    resolveMsg (allocStore vs) fuel j = vs.getD j vdefault := by
  have hfj : flatMsg (vs.getD j vdefault) := by
    apply hf
    rw [List.getD_eq_getElem vs vdefault hj]
    exact List.getElem_mem hj
  unfold resolveMsg
  have hmsg : getMsg (allocStore vs) j = (allocMsgs vs 0).getD j mdefault := rfl
  rw [hmsg, getD_allocMsgs vs 0 j hj]
  rcases hv : vs.getD j vdefault with ⟨ro, co, tr⟩
  dsimp only
  cases tr with
  | none => rfl
  | some tvs =>
    have hfrec : flatRecords tvs := by
      rw [hv] at hfj
      exact hfj tvs rfl
    have hcell : getCell (allocStore vs) (0 + j) = tvs.map trToItem := by
      show (allocCells vs 0 (vs.map (fun _ => []))).getD (0 + j) [] = tvs.map trToItem
      apply getD_allocCells_flat vs 0 _ j tvs hf ?_ hj ?_
      · rw [List.length_map]
        omega
      · rw [hv]
    show MsgVal.mk ro co (some ((getCell (allocStore vs) (0 + j)).map
        (resolveItem (allocStore vs).lists fuel))) = MsgVal.mk ro co (some tvs)
    rw [hcell, List.map_map]
    have hcg : tvs.map (resolveItem (allocStore vs).lists fuel ∘ trToItem) = tvs.map id :=
      List.map_congr_left (fun it hit => resolveItem_trToItem_flat (hfrec it hit) _ fuel)
    rw [hcg, List.map_id]

/-- Writing role `user` to a message that already has role `user` leaves the
store unchanged. -/
theorem setMsgF_role_user_id {st : Store} {x : Nat} (hx : x < st.msgs.length)
    (h : roleOf st x = "user") :
    setMsgF st x (fun mm => { mm with role := "user" }) = st := by
  have hfix : ({ getMsg st x with role := "user" } : PyMsg) = getMsg st x := by
    rw [← h]
    rfl
  unfold setMsgF
  show { st with msgs := st.msgs.set x ({ getMsg st x with role := "user" }) } = st
  rw [hfix]
  show { st with msgs := st.msgs.set x (st.msgs.getD x mdefault) } = st
  rw [set_getD_self st.msgs x mdefault hx]

/-- Writing a cell's own contents back leaves the store unchanged. -/
theorem setCell_self_id {st : Store} {l : Nat} (hl : l < st.lists.length) :
    setCell st l (getCell st l) = st := by
  show { st with lists := st.lists.set l (st.lists.getD l []) } = st
  rw [set_getD_self st.lists l [] hl]

/-- On an already-normalized user message the emit branch rewrites nothing. -/
theorem fmoStep_id {st : Store} {x : Nat} {clean : List Nat}
    (hx : x < st.msgs.length) (hu : isUserish (roleOf st x) = true)
    (hg : stepGood st x) :
    fmoStep st clean false x = .ok (st, x :: clean, true) := by
  obtain ⟨hrole, htrg⟩ := hg hu
  unfold fmoStep
  have hu' : isUserish (getMsg st x).role = true := hu
  simp only [hu', if_true, Bool.false_eq_true, if_false]
  rw [setMsgF_role_user_id hx hrole]
  cases htr : (getMsg st x).tr with
  | none => rfl
  | some l =>
    have hgoal : (if getCell st l ≠ [] then
        match setAllUser (getCell st l) with
        | Except.error e => Except.error e
        | Except.ok items => Except.ok (setCell st l items, x :: clean, true)
      else Except.ok (st, x :: clean, true))
        = (Except.ok (st, x :: clean, true) :
          Except Unit (Store × List Nat × Bool)) := by
      by_cases hc : getCell st l ≠ []
      · rw [if_pos hc, setAllUser_id (htrg l htr)]
        show Except.ok (setCell st l (getCell st l), x :: clean, true) = _
        rw [setCell_self_id (getCell_ne_nil_lt hc)]
      · rw [if_neg hc]
    exact hgoal

/-- On an already-normalized conversation the whole loop is the identity:
every message is emitted unchanged, in order, and the store is untouched. -/
theorem fmoLoop_id : ∀ (rs : List Nat) (st : Store) (clean : List Nat) (prev : Bool),
    (∀ x ∈ rs, x < st.msgs.length) →
    (∀ x ∈ rs, stepGood st x) →
    List.Chain' noTwoUserish (rs.map (roleOf st)) →
    (prev = true → rs = [] ∨ ∃ x rs', rs = x :: rs' ∧ isUserish (roleOf st x) = false) →
    fmoLoop st rs clean prev = .ok (rs.reverse ++ clean, st) := by
  intro rs
  induction rs with
  | nil =>
    intro st clean prev _ _ _ _
    rw [fmoLoop]
    simp
  | cons x rest ih =>
    intro st clean prev hb hg hchain hprev
    rw [fmoLoop]
    by_cases hu : isUserish (roleOf st x) = true
    · have hpf : prev = false := by
        cases prev with
        | false => rfl
        | true =>
          rcases hprev rfl with hnil | ⟨x', rs', heq, hne⟩
          · cases hnil
          · injection heq with h1 h2
            subst h1
            rw [hne] at hu
            cases hu
      subst hpf
      rw [fmoStep_id (hb x (by simp)) hu (hg x (by simp))]
      have hrec := ih st (x :: clean) true (fun y hy => hb y (by simp [hy]))
        (fun y hy => hg y (by simp [hy]))
        (by
          rw [List.map_cons] at hchain
          exact hchain.tail)
        (by
          intro _
          cases rest with
          | nil => exact Or.inl rfl
          | cons y rs' =>
            right
            refine ⟨y, rs', rfl, ?_⟩
            have hrel := (List.chain'_cons.mp (by simpa using hchain)).1
            cases hb2 : isUserish (roleOf st y) with
            | false => rfl
            | true => exact absurd ⟨hu, hb2⟩ hrel)
      exact hrec.trans (by rw [List.reverse_cons, List.append_assoc]; rfl)
    · have hu' : isUserish (roleOf st x) = false := by
        cases hb2 : isUserish (roleOf st x) with
        | false => rfl
        | true => exact absurd hb2 hu
      rw [fmoStep_skip st clean prev x hu']
      have hrec := ih st (x :: clean) false (fun y hy => hb y (by simp [hy]))
        (fun y hy => hg y (by simp [hy]))
        (by
          rw [List.map_cons] at hchain
          exact hchain.tail)
        (by intro hc; cases hc)
      exact hrec.trans (by rw [List.reverse_cons, List.append_assoc]; rfl)

theorem roleOf_allocStore (vs : List MsgVal) (j : Nat) (hj : j < vs.length) :
    roleOf (allocStore vs) j = (vs.getD j vdefault).role := by
  show ((allocMsgs vs 0).getD j mdefault).role = _
  rw [getD_allocMsgs vs 0 j hj]

theorem map_resolveMsg_range_flat (vs : List MsgVal) (fuel : Nat)
    (hf : ∀ v ∈ vs, flatMsg v) :
    (List.range vs.length).map (resolveMsg (allocStore vs) fuel) = vs := by
  apply List.ext_getElem
  · simp
  · intro j h1 h2
    rw [List.getElem_map, List.getElem_range]
    rw [resolveMsg_allocStore_flat vs fuel j h2 hf]
    exact List.getD_eq_getElem vs vdefault h2

/-- On a conversation that is already in normal form — no nested
`tool_responses`, no two adjacent user-like roles, and every user-like
message already a `user` message whose `tool_responses` records all carry
role `user` — `fix_message_ownership` is the identity (and also reports the
input objects unchanged). -/
theorem fix_identity (vs : List MsgVal)
    (hflat : ∀ v ∈ vs, flatMsg v)
    (hchain : List.Chain' noTwoUserish (vs.map MsgVal.role))
    (hgood : ∀ v ∈ vs, isUserish v.role = true → v.role = "user" ∧
        ∀ lv, v.tr = some lv → ∀ it ∈ lv, ∃ co, it = TRVal.rcd "user" co) :
    fix_message_ownership vs = .ok (vs, vs) := by
  have hmem : ∀ j, j < vs.length → vs.getD j vdefault ∈ vs := by
    intro j hj
    rw [List.getD_eq_getElem vs vdefault hj]
    exact List.getElem_mem hj
  have hb : ∀ x ∈ List.range vs.length, x < (allocStore vs).msgs.length := by
    intro x hx
    rw [length_msgs_allocStore]
    exact List.mem_range.mp hx
  have hg : ∀ x ∈ List.range vs.length, stepGood (allocStore vs) x := by
    intro x hx hux
    have hxlt := List.mem_range.mp hx
    rw [roleOf_allocStore vs x hxlt] at hux ⊢
    obtain ⟨hrole, htr⟩ := hgood _ (hmem x hxlt) hux
    refine ⟨hrole, ?_⟩
    intro l hl
    have hmsg : getMsg (allocStore vs) x =
        ⟨(vs.getD x vdefault).role, (vs.getD x vdefault).content,
          ((vs.getD x vdefault).tr).map (fun _ => 0 + x)⟩ := by
      show (allocMsgs vs 0).getD x mdefault = _
      exact getD_allocMsgs vs 0 x hxlt
    rw [hmsg] at hl
    cases htv : (vs.getD x vdefault).tr with
    | none =>
      rw [htv] at hl
      cases hl
    | some tvs =>
      rw [htv] at hl
      injection hl with hleq
      subst hleq
      have hcell : getCell (allocStore vs) (0 + x) = tvs.map trToItem := by
        show (allocCells vs 0 (vs.map (fun _ => []))).getD (0 + x) [] = _
        apply getD_allocCells_flat vs 0 _ x tvs hflat ?_ hxlt htv
        rw [List.length_map]
        omega
      rw [hcell]
      intro it hit
      obtain ⟨it0, hit0, hmap⟩ := List.mem_map.mp hit
      obtain ⟨co, hco⟩ := htr tvs htv it0 hit0
      subst hco
      refine ⟨co, ?_⟩
      rw [← hmap]
      rfl
  have hchain2 : List.Chain' noTwoUserish
      ((List.range vs.length).map (roleOf (allocStore vs))) := by
    have heq : (List.range vs.length).map (roleOf (allocStore vs))
        = vs.map MsgVal.role := by
      apply List.ext_getElem
      · simp
      · intro j h1 h2
        have hjlt : j < vs.length := by
          rw [List.length_map] at h2
          exact h2
        rw [List.getElem_map, List.getElem_map, List.getElem_range]
        rw [roleOf_allocStore vs j hjlt]
        rw [List.getD_eq_getElem vs vdefault hjlt]
    rw [heq]
    exact hchain
  have hloop := fmoLoop_id (List.range vs.length) (allocStore vs) [] false hb hg
    hchain2 (by intro hc; cases hc)
  dsimp only [fix_message_ownership]
  rw [hloop]
  show Except.ok ((List.range vs.length).map
      (resolveMsg (allocStore vs) ((allocStore vs).lists.length)),
    (((List.range vs.length).reverse ++ []).reverse).map
      (resolveMsg (allocStore vs) ((allocStore vs).lists.length)))
    = Except.ok (vs, vs)
  rw [List.append_nil, List.reverse_reverse]
  rw [map_resolveMsg_range_flat vs _ hflat]

theorem resolveItem_rcd (ls : List (List TRItem)) (fuel : Nat) (r c : String) :
    resolveItem ls fuel (TRItem.rcd r c) = TRVal.rcd r c := by
  cases fuel <;> rfl

theorem resolveItem_nref_nested (ls : List (List TRItem)) (fuel n : Nat) :
    ∃ xs, resolveItem ls fuel (TRItem.nref n) = TRVal.nested xs := by
  cases fuel with
  | zero => exact ⟨[], rfl⟩
  | succ f => exact ⟨_, rfl⟩

/-- Claim C7 as amended: normalization is idempotent on every conversation
whose normal form contains no nested `tool_responses` entry (which is the
case exactly when no merge hits a previous message that already carries
`tool_responses`): re-normalizing such an output returns it unchanged. -/
theorem c7_amended_idempotent_on_flat_output (m fi out : List MsgVal)
    (h : fix_message_ownership m = .ok (fi, out))
    (hflat : ∀ v ∈ out, flatMsg v) :
    fix_message_ownership out = .ok (out, out) := by
  dsimp only [fix_message_ownership] at h
  cases hrun : fmoLoop (allocStore m) (List.range m.length) [] false with
  | error e =>
    rw [hrun] at h
    cases h
  | ok res =>
    obtain ⟨cleanRev, st'⟩ := res
    rw [hrun] at h
    injection h with h1
    injection h1 with hfi hout
    obtain ⟨hchain, hnotool, htru⟩ := fmoLoop_inv (loopInv_start m) hrun
    apply fix_identity out hflat
    · rw [← hout, List.map_map]
      have hc1 : List.Chain' (fun a b => noTwoUserish (roleOf st' a) (roleOf st' b))
          cleanRev := (List.chain'_map (roleOf st')).mp hchain
      have hc2 : List.Chain' (fun a b => noTwoUserish (roleOf st' b) (roleOf st' a))
          cleanRev := hc1.imp (fun a b hab ⟨hb2, ha2⟩ => hab ⟨ha2, hb2⟩)
      have hc3 : List.Chain' (fun a b => noTwoUserish (roleOf st' a) (roleOf st' b))
          cleanRev.reverse := by
        rw [List.chain'_reverse]
        exact hc2
      exact (List.chain'_map _).mpr hc3
    · intro v hv huv
      have hvout : v ∈ out := hv
      rw [← hout] at hv
      obtain ⟨x, hx, hvx⟩ := List.mem_map.mp hv
      have hxm := List.mem_reverse.mp hx
      have hrole : roleOf st' x = "user" := by
        apply eq_user_of_userish_ne_tool ?_ (hnotool x hxm)
        rw [← hvx] at huv
        exact huv
      constructor
      · rw [← hvx]
        exact hrole
      · intro lv hlv it hit
        rw [← hvx] at hlv
        cases htrx : (getMsg st' x).tr with
        | none =>
          have : (resolveMsg st' (st'.lists.length) x).tr = none := by
            show ((getMsg st' x).tr).map _ = none
            rw [htrx]
            rfl
          rw [this] at hlv
          cases hlv
        | some l =>
          have hres : (resolveMsg st' (st'.lists.length) x).tr
              = some ((getCell st' l).map (resolveItem st'.lists (st'.lists.length))) := by
            show ((getMsg st' x).tr).map _ = _
            rw [htrx]
            rfl
          rw [hres] at hlv
          injection hlv with hlveq
          subst hlveq
          obtain ⟨it0, hit0, hmap⟩ := List.mem_map.mp hit
          cases it0 with
          | rcd ro co =>
            have hro : ro = "user" :=
              htru x hxm hrole l htrx (TRItem.rcd ro co) hit0 ro co rfl
            subst hro
            refine ⟨co, ?_⟩
            rw [← hmap, resolveItem_rcd]
          | nref n =>
            exfalso
            obtain ⟨xs, hxs⟩ := resolveItem_nref_nested st'.lists (st'.lists.length) n
            have hvtr : v.tr = some ((getCell st' l).map
                (resolveItem st'.lists (st'.lists.length))) := by
              rw [← hvx]
              exact hres
            obtain ⟨ro, co, hco⟩ := hflat v hvout _ hvtr it hit
            rw [← hmap, hxs] at hco
            cases hco

/-- Witness for the amended C7: the normal form of `[{tool, X}]` is flat and
re-normalizing it returns it unchanged. -/
theorem c7_amended_idempotent_witness :
    fix_message_ownership [⟨"user", "X", none⟩]
      = .ok ([⟨"user", "X", none⟩], [⟨"user", "X", none⟩]) :=
  c7_amended_idempotent_on_flat_output [⟨"tool", "X", none⟩]
    [⟨"user", "X", none⟩] [⟨"user", "X", none⟩] (by rfl)
    (by
      intro v hv l hl
      rw [List.mem_singleton] at hv
      subst hv
      cases hl)

end ToollessVerif
